import Mathlib

/-!
# TRXUtil: header validation and repair

A shallow embedding of `TRXUtil.c` (the checksum `calcCRC`, the repair step `writeTRX`
and the validation pass `validateTRX`) together with theorems about it.

Modelling conventions.

* A byte is a `Fin 256`.  A C pointer `char *p` is modelled by the memory seen from it:
  a total function from the offset to the byte stored there (`Mem`).  The bytes of the
  file are the offsets `0 .. size-1` of `data`; a read past the end of a block returns
  whatever the memory function holds there.  `validateTRX` is the pass as it runs when
  no call of `calcCRC` leaves the block it reads; `validateTRXChecked` adds that fault
  and ends in `Except.error` where the program dies inside `calcCRC`.
* `unsigned int` values are natural numbers, reduced modulo `2^32` wherever the C
  arithmetic can wrap.  `struct TRXHeader` is laid out without padding and fields are
  little-endian, as on the platforms the tool was written for.
* `malloc` returns a block with indeterminate contents; these are parameters
  (`freshHeader`, `freshData`) of `validateTRX`.  An allocation never fails.
* `writeFile` is modelled by its effect: the list of bytes handed to it is appended to
  the list of written files.  The output file name and the `printf` calls are omitted.
-/

namespace TRXUtil

/-! ## Memory -/

/-- One byte (a C `char` seen as an unsigned value). -/
abbrev Byte := Fin 256

/-- The memory seen from a pointer: offset to byte. -/
abbrev Mem := Nat → Byte

/-- Pointer arithmetic `p + k`. -/
def ptrAdd (p : Mem) (k : Nat) : Mem := fun i => p (i + k)

/-- A buffer holding the bytes `bs`, followed by zero bytes. -/
def ofBytes (bs : List Byte) : Mem := fun i => bs.getD i 0

/-- The first `n` bytes found at `p`. -/
def readBytes (p : Mem) (n : Nat) : List Byte := (List.range n).map p

/-- Byte number `k` (little-endian) of the value `v`. -/
def byteOf (v k : Nat) : Byte := ⟨v / 256 ^ k % 256, Nat.mod_lt _ (by decide)⟩

/-- The four bytes of a 32-bit value, least significant first. -/
def u32Bytes (v : Nat) : List Byte := [byteOf v 0, byteOf v 1, byteOf v 2, byteOf v 3]

/-- Read an `unsigned int` stored at byte offset `off`. -/
def readU32 (p : Mem) (off : Nat) : Nat :=
  (p off).val + 256 * (p (off + 1)).val + 65536 * (p (off + 2)).val
    + 16777216 * (p (off + 3)).val

/-- Store an `unsigned int` at byte offset `off`. -/
def writeU32 (p : Mem) (off v : Nat) : Mem :=
  fun i => if off ≤ i ∧ i < off + 4 then byteOf v (i - off) else p i

/-- The call `memcpy(dst + off, src, n)`, as the new contents of `dst`. -/
def memcpy (dst : Mem) (off : Nat) (src : Mem) (n : Nat) : Mem :=
  fun i => if off ≤ i ∧ i < off + n then src (i - off) else dst i

/-! ## The header -/

/-- TRX magic (HDR0). -/
def TRX_MAGIC : Nat := 0x30524448

/-- The C `struct TRXHeader`; `offsets0..2` are `offsets[0..2]`. -/
structure TRXHeader where
  magic : Nat
  len : Nat
  crc : Nat
  flags_vers : Nat
  offsets0 : Nat
  offsets1 : Nat
  offsets2 : Nat
  deriving DecidableEq, Repr

/-- The value of `sizeof(struct TRXHeader)`. -/
def headerLength : Nat := 28

/-- The object representation of a header: its 28 bytes in memory. -/
def headerBytes (h : TRXHeader) : List Byte :=
  u32Bytes h.magic ++ u32Bytes h.len ++ u32Bytes h.crc ++ u32Bytes h.flags_vers
    ++ u32Bytes h.offsets0 ++ u32Bytes h.offsets1 ++ u32Bytes h.offsets2

/-- The header seen through the cast `(struct TRXHeader *)p`. -/
def readHeader (p : Mem) : TRXHeader where
  magic := readU32 p 0
  len := readU32 p 4
  crc := readU32 p 8
  flags_vers := readU32 p 12
  offsets0 := readU32 p 16
  offsets1 := readU32 p 20
  offsets2 := readU32 p 24

/-- The call `memcpy(p, h, headerLength)` for a header object `h`. -/
def storeHeader (p : Mem) (h : TRXHeader) : Mem :=
  memcpy p 0 (ofBytes (headerBytes h)) headerLength

/-! ## calcCRC -/

/-- The generator polynomial `poly` of `calcCRC`. -/
def poly : Nat := 0xEDB88320

/-- One pass of the inner loop body: `crc = (crc & 1) ? (poly ^ (crc >> 1)) : (crc >> 1)`. -/
def crcBit (crc : Nat) : Nat :=
  if crc &&& 1 ≠ 0 then poly ^^^ (crc >>> 1) else crc >>> 1

/-- The value stored in `crc32[n]`: eight passes of the inner loop from `n`. -/
def crcTableEntry (n : Nat) : Nat := Nat.iterate crcBit 8 n

/-- The table built on first use: `crc32[0..255]`. -/
def buildTable : List Nat := (List.range 256).map crcTableEntry

/-- Conversion of a `char` to `unsigned int` where `char` is signed: values from 128 on
are negative and sign-extend. -/
def charToUInt (b : Byte) : Nat := if b.val < 128 then b.val else b.val + 0xFFFFFF00

/-- The loop body `crc = crc32[(crc ^ *data) & 0xff] ^ (crc >> 8)`, stored back into an
`unsigned int`. -/
def crcStep (tbl : List Nat) (crc : Nat) (b : Byte) : Nat :=
  (tbl.getD ((crc ^^^ charToUInt b) &&& 0xff) 0 ^^^ (crc >>> 8)) % 2 ^ 32

/-- The loop `for (; length; length--, data++)`. -/
def crcLoop (tbl : List Nat) : Nat → Mem → Nat → Nat
  | 0, _, crc => crc
  | length + 1, data, crc => crcLoop tbl length (ptrAdd data 1) (crcStep tbl crc (data 0))

/-- The function `calcCRC` with the global table pointer `crc32` made explicit: `none` is
the `NULL` pointer.  Returns the checksum and the table pointer after the call. -/
def calcCRCFrom (crc32 : Option (List Nat)) (data : Mem) (length : Nat) :
    Nat × Option (List Nat) :=
  let tbl := match crc32 with
    | some t => t
    | none => buildTable
  (crcLoop tbl length data 0xFFFFFFFF, some tbl)

/-- The checksum returned by `calcCRC(data, length)`.  The table holds the same entries
whether it is built by this call or was built by an earlier one, so the value is that of
a call that starts from the unbuilt table. -/
def calcCRC (data : Mem) (length : Nat) : Nat := (calcCRCFrom none data length).1

/-! ## writeTRX -/

/-- What one call of `writeTRX` leaves behind: the header object `*expectedHeader`, the
buffer `*currentHeaderPointer` now points to, and the bytes handed to `writeFile`. -/
structure WriteResult where
  expectedHeader : TRXHeader
  currentHeader : Mem
  file : List Byte

/-- The tail of `writeTRX` shared by both branches: recalculate the checksum and write
out the revised file (`newlen` bytes from `currentHeader`). -/
def finishWrite (newlen : Nat) (expectedHeader : TRXHeader) (currentHeader : Mem) :
    WriteResult :=
  let crc := calcCRC (ptrAdd currentHeader 12) ((readU32 currentHeader 4 + 2 ^ 32 - 12) % 2 ^ 32)
  let currentHeader := writeU32 currentHeader 8 crc
  let expectedHeader := { expectedHeader with crc := readU32 currentHeader 8 }
  { expectedHeader := expectedHeader
    currentHeader := currentHeader
    file := readBytes currentHeader newlen }

/-- The function `writeTRX`.  `freshData` is the block returned by `malloc` in the
new-header branch. -/
def writeTRX (newHeader : Bool) (expectedHeader : TRXHeader) (currentHeader : Mem)
    (linksys : Bool) (freshData : Mem) : WriteResult :=
  let newlen := expectedHeader.len
  if newHeader then
    -- Write new header
    let expectedHeader := { expectedHeader with len := (expectedHeader.len + headerLength) % 2 ^ 32 }
    let newData := freshData
    let newData := storeHeader newData expectedHeader
    let newData := memcpy newData headerLength currentHeader expectedHeader.len
    finishWrite newlen expectedHeader newData
  else
    -- Overwrite existing header
    let currentHeader := storeHeader currentHeader expectedHeader
    if linksys then
      let currentHeader :=
        writeU32 currentHeader 4 ((readU32 currentHeader 4 + 2 ^ 32 - 978) % 2 ^ 32)
      let expectedHeader :=
        { expectedHeader with len := (expectedHeader.len + 2 ^ 32 - 978) % 2 ^ 32 }
      finishWrite newlen expectedHeader currentHeader
    else
      finishWrite newlen expectedHeader currentHeader

/-! ## validateTRX -/

/-- The variables of `validateTRX` that change during a pass, and the files written so
far (in order). -/
structure State where
  expectedHeader : TRXHeader
  currentHeader : Mem
  retVal : Int
  written : List (List Byte)

/-- A call `writeTRX(newHeader, ...)` followed by `retVal = ret`. -/
def repair (newHeader : Bool) (ret : Int) (linksys : Bool) (freshData : Mem) (s : State) :
    State :=
  let w := writeTRX newHeader s.expectedHeader s.currentHeader linksys freshData
  { expectedHeader := w.expectedHeader
    currentHeader := w.currentHeader
    retVal := ret
    written := s.written ++ [w.file] }

/-- The block "Cast the beginning of the file as a TRX header, and fill in expected
header values".  `freshHeader` is the block returned by `malloc`. -/
def expectedInit (size : Nat) (data : Mem) (freshHeader : TRXHeader) : TRXHeader :=
  let e := { freshHeader with magic := TRX_MAGIC, len := size % 2 ^ 32 }
  let e := if size > headerLength then
      { e with crc := calcCRC (ptrAdd data 12) ((e.len + 2 ^ 32 - 12) % 2 ^ 32) }
    else e
  { e with
    flags_vers := readU32 data 12
    offsets0 := readU32 data 16
    offsets1 := readU32 data 20
    offsets2 := readU32 data 24 }

/-- The assignments "Firmware doesn't actually have a TRX header, so populate its other
fields". -/
def fallbackHeader (e : TRXHeader) : TRXHeader :=
  { e with flags_vers := 0x10000, offsets0 := 0x1C, offsets1 := 0x0930, offsets2 := 0x1DDD0C }

/-- The block "Validate magic number". -/
def validateMagic (linksys : Bool) (freshData : Mem) (s : State) : State :=
  if readU32 s.currentHeader 0 = s.expectedHeader.magic then s
  else
    repair true (-1) linksys freshData
      { s with expectedHeader := fallbackHeader s.expectedHeader }

/-- The block "Validate file size is more than TRX header". -/
def validateSize (linksys : Bool) (freshData : Mem) (s : State) : State :=
  if readU32 s.currentHeader 4 < headerLength then repair false (-2) linksys freshData s
  else s

/-- The block "Validate file length". -/
def validateLength (linksys : Bool) (freshData : Mem) (s : State) : State :=
  if readU32 s.currentHeader 4 = s.expectedHeader.len then s
  else repair false (-2) linksys freshData s

/-- The block "Validate checksum". -/
def validateChecksum (linksys : Bool) (freshData : Mem) (s : State) : State :=
  if s.retVal ≠ 0 then
    if readU32 s.currentHeader 8 = s.expectedHeader.crc then s
    else repair false (-2) linksys freshData s
  else s

/-- The state in which the checks start: `retVal = 1`, `currentHeader = data`, nothing
written yet. -/
def initState (size : Nat) (data : Mem) (freshHeader : TRXHeader) : State :=
  { expectedHeader := expectedInit size data freshHeader
    currentHeader := data
    retVal := 1
    written := [] }

/-- The function `validateTRX(size, data, filename, linksys)`: the state at `return`, as
the pass runs when no call of `calcCRC` leaves the block it reads (`validateTRXChecked`
below adds that fault). -/
def validateTRX (size : Nat) (data : Mem) (linksys : Bool) (freshHeader : TRXHeader)
    (freshData : Mem) : State :=
  let s := initState size data freshHeader
  let s := validateMagic linksys freshData s
  let s := validateSize linksys freshData s
  let s := validateLength linksys freshData s
  validateChecksum linksys freshData s

/-! ## Reference definitions and test data -/

/-- Every field fits an `unsigned int`. -/
def TRXHeader.IsU32 (h : TRXHeader) : Prop :=
  h.magic < 2 ^ 32 ∧ h.len < 2 ^ 32 ∧ h.crc < 2 ^ 32 ∧ h.flags_vers < 2 ^ 32 ∧
    h.offsets0 < 2 ^ 32 ∧ h.offsets1 < 2 ^ 32 ∧ h.offsets2 < 2 ^ 32

/-- Reference CRC-32, one bit: shift the accumulator right by one and, when the bit
shifted out is set, exclusive-or the reversed polynomial `0xEDB88320` in. -/
def reflectedShift (acc : Nat) : Nat :=
  if acc % 2 = 1 then (acc / 2) ^^^ 0xEDB88320 else acc / 2

/-- Reference CRC-32, one byte: exclusive-or the byte into the accumulator, then eight
single-bit steps. -/
def bitwiseByte (acc : Nat) (b : Byte) : Nat :=
  Nat.iterate reflectedShift 8 (acc ^^^ b.val)

/-- Reference bit-at-a-time reflected CRC-32 with initial value `0xFFFFFFFF` and no final
complement. -/
def crc32NoComplement (B : List Byte) : Nat := B.foldl bitwiseByte 0xFFFFFFFF

/-- The standard CRC-32: the same with the final complement. -/
def standardCRC32 (B : List Byte) : Nat := crc32NoComplement B ^^^ 0xFFFFFFFF

/-- Memory holding only zero bytes. -/
def zeroMem : Mem := fun _ => 0

/-- A header object whose fields are all zero. -/
def zeroHeader : TRXHeader := ⟨0, 0, 0, 0, 0, 0, 0⟩

/-- The ASCII digits "123456789". -/
def digits : List Byte := [0x31, 0x32, 0x33, 0x34, 0x35, 0x36, 0x37, 0x38, 0x39]

/-- A file that starts with the magic "HDR0" and holds zero bytes after it (so its `len`
field is 0). -/
def magicOnly : Mem := ofBytes [0x48, 0x44, 0x52, 0x30]

/-- A 28-byte file that is exactly one correct header: magic, `len = 28`, the checksum of
its last 16 bytes, and zero flags and offsets. -/
def header28 : List Byte :=
  [0x48, 0x44, 0x52, 0x30, 28, 0, 0, 0, 170, 180, 68, 19,
   0, 0, 0, 0, 0, 0, 0, 0, 0, 0, 0, 0, 0, 0, 0, 0]

/-- The 16 bytes of the fallback fields `flags_vers = 0x10000` and
`offsets = [0x1C, 0x0930, 0x1DDD0C]` as they lie in memory. -/
def fallbackTail : List Byte :=
  u32Bytes 0x10000 ++ u32Bytes 0x1C ++ u32Bytes 0x0930 ++ u32Bytes 0x1DDD0C

/-! ## Sequences of calls and test data for the repair paths -/

/-- The table pointer `crc32` after a sequence of calls `calcCRC(data, length)` made one
after the other, starting from the `NULL` pointer. -/
def tableAfter (calls : List (Mem × Nat)) : Option (List Nat) :=
  calls.foldl (fun crc32 c => (calcCRCFrom crc32 c.1 c.2).2) none

/-- The buffer `currentHeader` points to when `writeTRX` reaches "Recalculate checksum":
the new buffer `newData` in the new-header branch, the buffer with the expected header
copied over its first 28 bytes (and 978 taken off its `len` field in linksys mode) in
the overwrite branch. -/
def writeTRXBuffer (newHeader : Bool) (expectedHeader : TRXHeader) (currentHeader : Mem)
    (linksys : Bool) (freshData : Mem) : Mem :=
  if newHeader then
    memcpy
      (storeHeader freshData
        { expectedHeader with len := (expectedHeader.len + headerLength) % 2 ^ 32 })
      headerLength currentHeader ((expectedHeader.len + headerLength) % 2 ^ 32)
  else if linksys then
    writeU32 (storeHeader currentHeader expectedHeader) 4
      ((readU32 (storeHeader currentHeader expectedHeader) 4 + 2 ^ 32 - 978) % 2 ^ 32)
  else storeHeader currentHeader expectedHeader

/-- The `length` argument `currentHeader->len-3*sizeof(int)` of the call of `calcCRC` in
`writeTRX`, for the buffer `currentHeader` points to. -/
def crcLength (currentHeader : Mem) : Nat := (readU32 currentHeader 4 + 2 ^ 32 - 12) % 2 ^ 32

/-- A 27-byte file that starts with the magic and whose `len` field says 1000. -/
def len1000 : Mem := ofBytes [0x48, 0x44, 0x52, 0x30, 0xE8, 0x03, 0, 0]

/-- An 8-byte file: the magic and `len = 8`. -/
def tiny8 : Mem := ofBytes [0x48, 0x44, 0x52, 0x30, 8, 0, 0, 0]

/-! ## Faults

`validateTRX` above is the pass as it runs when every call of `calcCRC` stays inside the
block it reads.  The checked pass adds the fault the input can trigger: a call
`calcCRC(p + 12, count)` whose bytes `[12, 12 + count)` leave the block that `p` points
to is undefined behaviour, and the program ends there with a segmentation fault (the
counts that leave a block are the wrapped ones, `2^32 - 990` bytes or more, behind a
block of less than `2^31 + 56` bytes).  The block of `data` has `size + 1` bytes
(`readFile`), the block of `newData` has the size handed to `malloc`.  A checked pass
ends in `Except.ok` with the state at `return`, or in `Except.error` with the files
handed to `writeFile` before the fault.  Only the reads of `calcCRC` are checked.  The
header fields of a file shorter than 28 bytes, and the `size + 28` bytes that the
`memcpy` of the new-header branch copies out of the block of `size + 1` bytes, lie at
most 27 bytes behind the block; they are read from the memory function and the pass
runs on. -/

/-- The state of a pass together with the size of the block `currentHeader` points to. -/
structure Checked where
  state : State
  block : Nat

/-- The start of a checked pass: the call of `calcCRC` in "fill in expected header
values" (made when `size > sizeof(struct TRXHeader)`) reads `expectedHeader->len - 12`
bytes from offset 12 of the block of `data`. -/
def initChecked (size : Nat) (data : Mem) (freshHeader : TRXHeader) :
    Except (List (List Byte)) Checked :=
  if size > headerLength then
    if 12 + (size % 2 ^ 32 + 2 ^ 32 - 12) % 2 ^ 32 ≤ size + 1 then
      Except.ok { state := initState size data freshHeader, block := size + 1 }
    else Except.error []
  else Except.ok { state := initState size data freshHeader, block := size + 1 }

/-- A checked call `writeTRX(newHeader, ...)` followed by `retVal = ret`: the call of
`calcCRC` in "Recalculate checksum" reads `crcLength` bytes from offset 12 of the block
`currentHeader` then points to, which is the block from
`malloc(expectedHeader->len+headerLength)` in the new-header branch. -/
def repairChecked (newHeader : Bool) (ret : Int) (linksys : Bool) (freshData : Mem)
    (c : Checked) : Except (List (List Byte)) Checked :=
  let block :=
    if newHeader then
      ((c.state.expectedHeader.len + headerLength) % 2 ^ 32 + headerLength) % 2 ^ 32
    else c.block
  if 12 + crcLength (writeTRXBuffer newHeader c.state.expectedHeader c.state.currentHeader
      linksys freshData) ≤ block then
    Except.ok { state := repair newHeader ret linksys freshData c.state, block := block }
  else Except.error c.state.written

/-- The block "Validate magic number" of the checked pass. -/
def validateMagicChecked (linksys : Bool) (freshData : Mem) (c : Checked) :
    Except (List (List Byte)) Checked :=
  if readU32 c.state.currentHeader 0 = c.state.expectedHeader.magic then Except.ok c
  else
    repairChecked true (-1) linksys freshData
      { c with state := { c.state with expectedHeader := fallbackHeader c.state.expectedHeader } }

/-- The block "Validate file size is more than TRX header" of the checked pass. -/
def validateSizeChecked (linksys : Bool) (freshData : Mem) (c : Checked) :
    Except (List (List Byte)) Checked :=
  if readU32 c.state.currentHeader 4 < headerLength then
    repairChecked false (-2) linksys freshData c
  else Except.ok c

/-- The block "Validate file length" of the checked pass. -/
def validateLengthChecked (linksys : Bool) (freshData : Mem) (c : Checked) :
    Except (List (List Byte)) Checked :=
  if readU32 c.state.currentHeader 4 = c.state.expectedHeader.len then Except.ok c
  else repairChecked false (-2) linksys freshData c

/-- The block "Validate checksum" of the checked pass. -/
def validateChecksumChecked (linksys : Bool) (freshData : Mem) (c : Checked) :
    Except (List (List Byte)) Checked :=
  if c.state.retVal ≠ 0 then
    if readU32 c.state.currentHeader 8 = c.state.expectedHeader.crc then Except.ok c
    else repairChecked false (-2) linksys freshData c
  else Except.ok c

/-- The function `validateTRX(size, data, filename, linksys)` with faults: the state at
`return`, or, when a call of `calcCRC` leaves its block and the program ends there
without returning, the files written before that call. -/
def validateTRXChecked (size : Nat) (data : Mem) (linksys : Bool) (freshHeader : TRXHeader)
    (freshData : Mem) : Except (List (List Byte)) State :=
  (((((initChecked size data freshHeader).bind (validateMagicChecked linksys freshData)).bind
    (validateSizeChecked linksys freshData)).bind
    (validateLengthChecked linksys freshData)).bind
    (validateChecksumChecked linksys freshData)).map Checked.state

/-! ## Memory and header lemmas -/

set_option maxRecDepth 8000

theorem u32_split (v : Nat) :
    v / 256 ^ 0 % 256 + 256 * (v / 256 ^ 1 % 256) + 65536 * (v / 256 ^ 2 % 256)
      + 16777216 * (v / 256 ^ 3 % 256) = v % 2 ^ 32 := by
  norm_num
  omega

theorem readU32_writeU32_same (p : Mem) (off v : Nat) :
    readU32 (writeU32 p off v) off = v % 2 ^ 32 := by
  have h := u32_split v
  simp only [readU32, writeU32, byteOf]
  simp
  norm_num at h
  omega

theorem readU32_writeU32_other (p : Mem) (off v o : Nat) (h : o + 4 ≤ off ∨ off + 4 ≤ o) :
    readU32 (writeU32 p off v) o = readU32 p o := by
  simp only [readU32, writeU32]
  have h0 : ¬ (off ≤ o ∧ o < off + 4) := by omega
  have h1 : ¬ (off ≤ o + 1 ∧ o + 1 < off + 4) := by omega
  have h2 : ¬ (off ≤ o + 2 ∧ o + 2 < off + 4) := by omega
  have h3 : ¬ (off ≤ o + 3 ∧ o + 3 < off + 4) := by omega
  simp only [h0, h1, h2, h3, if_false]

theorem readU32_memcpy_before (dst src : Mem) (off n o : Nat) (h : o + 4 ≤ off) :
    readU32 (memcpy dst off src n) o = readU32 dst o := by
  simp only [readU32, memcpy]
  have h0 : ¬ (off ≤ o ∧ o < off + n) := by omega
  have h1 : ¬ (off ≤ o + 1 ∧ o + 1 < off + n) := by omega
  have h2 : ¬ (off ≤ o + 2 ∧ o + 2 < off + n) := by omega
  have h3 : ¬ (off ≤ o + 3 ∧ o + 3 < off + n) := by omega
  simp only [h0, h1, h2, h3, if_false]

theorem storeHeader_apply_lt (p : Mem) (h : TRXHeader) (i : Nat) (hi : i < 28) :
    storeHeader p h i = (headerBytes h).getD i 0 := by
  simp [storeHeader, memcpy, ofBytes, headerLength, hi]

theorem storeHeader_apply_ge (p : Mem) (h : TRXHeader) (i : Nat) (hi : 28 ≤ i) :
    storeHeader p h i = p i := by
  have : ¬ i < 28 := by omega
  simp [storeHeader, memcpy, headerLength, this]

theorem readHeader_storeHeader (p : Mem) (h : TRXHeader) :
    readHeader (storeHeader p h) =
      { magic := h.magic % 2 ^ 32, len := h.len % 2 ^ 32, crc := h.crc % 2 ^ 32,
        flags_vers := h.flags_vers % 2 ^ 32, offsets0 := h.offsets0 % 2 ^ 32,
        offsets1 := h.offsets1 % 2 ^ 32, offsets2 := h.offsets2 % 2 ^ 32 } := by
  simp only [readHeader, readU32, TRXHeader.mk.injEq]
  simp only [storeHeader_apply_lt, Nat.reduceAdd, Nat.reduceLT, Nat.zero_add, Nat.lt_add_one,
    Nat.zero_lt_succ]
  simp only [headerBytes, u32Bytes, List.cons_append, List.nil_append, List.getD_cons_zero,
    List.getD_cons_succ, byteOf]
  refine ⟨u32_split _, u32_split _, u32_split _, u32_split _, u32_split _, u32_split _, u32_split _⟩


theorem crcBit_eq_reflectedShift (x : Nat) : crcBit x = reflectedShift x := by
  simp only [crcBit, reflectedShift, poly, Nat.and_one_is_mod, Nat.shiftRight_one]
  by_cases h : x % 2 = 1
  · have h0 : x % 2 ≠ 0 := by omega
    simp only [h, h0, ne_eq, not_false_eq_true, if_true]
    exact Nat.xor_comm _ _
  · have h0 : x % 2 = 0 := by omega
    simp [h0]

theorem reflectedShift_xor (x y : Nat) :
    reflectedShift (x ^^^ y) = reflectedShift x ^^^ reflectedShift y := by
  have hm : (x ^^^ y) % 2 = (x + y) % 2 := Nat.xor_mod_two_eq
  have hd : (x ^^^ y) / 2 = x / 2 ^^^ y / 2 := Nat.xor_div_two
  unfold reflectedShift
  rw [hd]
  rcases Nat.mod_two_eq_zero_or_one x with hx | hx <;>
    rcases Nat.mod_two_eq_zero_or_one y with hy | hy
  · have : (x ^^^ y) % 2 = 0 := by omega
    simp [this, hx, hy]
  · have : (x ^^^ y) % 2 = 1 := by omega
    simp [this, hx, hy, Nat.xor_assoc]
  · have : (x ^^^ y) % 2 = 1 := by omega
    simp only [this, hx, hy, if_true]
    simp only [Nat.zero_ne_one, if_false]
    rw [Nat.xor_assoc, Nat.xor_assoc, Nat.xor_comm (y / 2)]
  · have : (x ^^^ y) % 2 = 0 := by omega
    simp only [this, hx, hy, if_true]
    simp only [Nat.zero_ne_one, if_false]
    rw [Nat.xor_assoc, ← Nat.xor_assoc 3988292384, Nat.xor_comm 3988292384 (y / 2),
      Nat.xor_assoc (y / 2), Nat.xor_self, Nat.xor_zero]

theorem iterate_reflectedShift_xor (k x y : Nat) :
    Nat.iterate reflectedShift k (x ^^^ y)
      = Nat.iterate reflectedShift k x ^^^ Nat.iterate reflectedShift k y := by
  induction k generalizing x y with
  | zero => rfl
  | succ k ih => simp only [Function.iterate_succ, Function.comp, reflectedShift_xor, ih]

theorem reflectedShift_double (z : Nat) : reflectedShift (2 * z) = z := by
  have h : (2 * z) % 2 = 0 := by omega
  have h2 : 2 * z / 2 = z := by omega
  simp [reflectedShift, h, h2]

theorem iterate_reflectedShift_shift (k z : Nat) :
    Nat.iterate reflectedShift k (2 ^ k * z) = z := by
  induction k generalizing z with
  | zero => simp
  | succ k ih =>
    have : 2 ^ (k + 1) * z = 2 * (2 ^ k * z) := by ring
    rw [Function.iterate_succ, Function.comp, this, reflectedShift_double, ih]

theorem split_low_byte (x : Nat) : x = (x % 256) ^^^ (2 ^ 8 * (x / 256)) := by
  apply Nat.eq_of_testBit_eq
  intro i
  have h256 : (256 : Nat) = 2 ^ 8 := by norm_num
  rw [Nat.testBit_xor, h256, Nat.testBit_mod_two_pow, Nat.testBit_mul_pow_two,
    ← Nat.shiftRight_eq_div_pow, Nat.testBit_shiftRight]
  by_cases hi : i < 8
  · have : ¬ i ≥ 8 := by omega
    simp [hi, this]
  · have h8 : i ≥ 8 := by omega
    have : 8 + (i - 8) = i := by omega
    simp [hi, h8, this]

theorem iterate8_split (x : Nat) :
    Nat.iterate reflectedShift 8 x = Nat.iterate reflectedShift 8 (x % 256) ^^^ (x / 256) := by
  conv_lhs => rw [split_low_byte x]
  rw [iterate_reflectedShift_xor, iterate_reflectedShift_shift]


theorem reflectedShift_lt (x : Nat) (h : x < 2 ^ 32) : reflectedShift x < 2 ^ 32 := by
  unfold reflectedShift
  have h2 : x / 2 < 2 ^ 32 := by omega
  split
  · exact Nat.xor_lt_two_pow h2 (by norm_num)
  · exact h2

theorem iterate_reflectedShift_lt (k x : Nat) (h : x < 2 ^ 32) :
    Nat.iterate reflectedShift k x < 2 ^ 32 := by
  induction k generalizing x with
  | zero => exact h
  | succ k ih =>
    rw [Function.iterate_succ, Function.comp]
    exact ih _ (reflectedShift_lt x h)

theorem crcTableEntry_eq (n : Nat) : crcTableEntry n = Nat.iterate reflectedShift 8 n := by
  have : crcBit = reflectedShift := funext crcBit_eq_reflectedShift
  rw [crcTableEntry, this]

theorem buildTable_getD (i : Nat) (h : i < 256) : buildTable.getD i 0 = crcTableEntry i := by
  simp [buildTable, List.getD_eq_getElem?_getD, List.getElem?_map, List.getElem?_range h]

theorem index_eq (crc : Nat) (b : Byte) :
    (crc ^^^ charToUInt b) &&& 0xff = (crc ^^^ b.val) % 256 := by
  have h255 : (0xff : Nat) = 2 ^ 8 - 1 := by norm_num
  have h256 : (256 : Nat) = 2 ^ 8 := by norm_num
  rw [h255, Nat.and_pow_two_sub_one_eq_mod]
  show (crc ^^^ charToUInt b) % 2 ^ 8 = (crc ^^^ b.val) % 2 ^ 8
  unfold charToUInt
  split
  · rfl
  · apply Nat.eq_of_testBit_eq
    intro i
    have hb : b.val < 2 ^ 8 := by have := b.isLt; omega
    have e : b.val + 0xFFFFFF00 = 2 ^ 8 * 0xFFFFFF + b.val := by norm_num; omega
    rw [Nat.testBit_mod_two_pow, Nat.testBit_mod_two_pow, Nat.testBit_xor, Nat.testBit_xor,
      e, Nat.testBit_mul_pow_two_add _ hb]
    by_cases hi : i < 8 <;> simp [hi]

theorem xor_byte_div (crc : Nat) (b : Byte) : (crc ^^^ b.val) / 256 = crc >>> 8 := by
  apply Nat.eq_of_testBit_eq
  intro i
  have hb8 : b.val < 2 ^ 8 := by have := b.isLt; omega
  have hb : b.val < 2 ^ (8 + i) :=
    Nat.lt_of_lt_of_le hb8 (Nat.pow_le_pow_right (by norm_num) (by omega))
  show ((crc ^^^ b.val) / 2 ^ 8).testBit i = (crc >>> 8).testBit i
  rw [← Nat.shiftRight_eq_div_pow, Nat.testBit_shiftRight, Nat.testBit_shiftRight,
    Nat.testBit_xor, Nat.testBit_lt_two_pow hb]
  simp

theorem crcStep_eq_bitwiseByte (crc : Nat) (b : Byte) (h : crc < 2 ^ 32) :
    crcStep buildTable crc b = bitwiseByte crc b := by
  have hx : crc ^^^ b.val < 2 ^ 32 :=
    Nat.xor_lt_two_pow h (by have := b.isLt; omega)
  have hlt : (crc ^^^ b.val) % 256 < 256 := Nat.mod_lt _ (by norm_num)
  have hres := iterate_reflectedShift_lt 8 _ hx
  unfold crcStep bitwiseByte
  rw [index_eq, buildTable_getD _ hlt, crcTableEntry_eq, ← xor_byte_div crc b, ← iterate8_split]
  exact Nat.mod_eq_of_lt hres

theorem bitwiseByte_lt (crc : Nat) (b : Byte) (h : crc < 2 ^ 32) : bitwiseByte crc b < 2 ^ 32 :=
  iterate_reflectedShift_lt 8 _ (Nat.xor_lt_two_pow h (by have := b.isLt; omega))

theorem readBytes_succ (p : Mem) (n : Nat) :
    readBytes p (n + 1) = p 0 :: readBytes (ptrAdd p 1) n := by
  simp only [readBytes, List.range_succ_eq_map, List.map_cons, List.map_map]
  rfl

theorem crcLoop_eq_foldl (n : Nat) (p : Mem) (crc : Nat) (h : crc < 2 ^ 32) :
    crcLoop buildTable n p crc = (readBytes p n).foldl bitwiseByte crc := by
  induction n generalizing p crc with
  | zero => rfl
  | succ n ih =>
    rw [crcLoop, readBytes_succ, List.foldl_cons, crcStep_eq_bitwiseByte crc _ h]
    exact ih _ _ (bitwiseByte_lt crc _ h)

theorem calcCRC_eq_bitwise (p : Mem) (n : Nat) :
    calcCRC p n = crc32NoComplement (readBytes p n) := by
  unfold calcCRC calcCRCFrom crc32NoComplement
  exact crcLoop_eq_foldl n p _ (by norm_num)

/-- The table pointer after a call is the built table, and a call that finds the table
built returns the same checksum as one that builds it. -/
theorem calcCRCFrom_built (p : Mem) (n : Nat) :
    (calcCRCFrom none p n).2 = some buildTable
      ∧ (calcCRCFrom (some buildTable) p n).2 = some buildTable
      ∧ (calcCRCFrom (some buildTable) p n).1 = calcCRC p n :=
  ⟨rfl, rfl, rfl⟩

theorem readBytes_ofBytes (B : List Byte) : readBytes (ofBytes B) B.length = B := by
  apply List.ext_getElem
  · simp [readBytes]
  · intro i h1 h2
    simp [readBytes, ofBytes, List.getD_eq_getElem?_getD, List.getElem?_eq_getElem h2]

/-! ### writeTRX and the checks -/

theorem finishWrite_currentHeader (newlen : Nat) (e : TRXHeader) (cur : Mem) :
    (finishWrite newlen e cur).currentHeader
      = writeU32 cur 8 (calcCRC (ptrAdd cur 12) ((readU32 cur 4 + 2 ^ 32 - 12) % 2 ^ 32)) := rfl

theorem finishWrite_expectedHeader (newlen : Nat) (e : TRXHeader) (cur : Mem) :
    (finishWrite newlen e cur).expectedHeader
      = { e with crc := readU32 (finishWrite newlen e cur).currentHeader 8 } := rfl

theorem finishWrite_file (newlen : Nat) (e : TRXHeader) (cur : Mem) :
    (finishWrite newlen e cur).file = readBytes (finishWrite newlen e cur).currentHeader newlen :=
  rfl

theorem finishWrite_len (newlen : Nat) (e : TRXHeader) (cur : Mem) :
    readU32 (finishWrite newlen e cur).currentHeader 4 = readU32 cur 4 ∧
      (finishWrite newlen e cur).expectedHeader.len = e.len ∧
      readU32 (finishWrite newlen e cur).currentHeader 8
        = (finishWrite newlen e cur).expectedHeader.crc := by
  refine ⟨?_, ?_, ?_⟩
  · rw [finishWrite_currentHeader]
    exact readU32_writeU32_other _ _ _ _ (Or.inl (by norm_num))
  · rw [finishWrite_expectedHeader]
  · rw [finishWrite_expectedHeader]

theorem readU32_storeHeader_len (p : Mem) (h : TRXHeader) :
    readU32 (storeHeader p h) 4 = h.len % 2 ^ 32 :=
  congrArg TRXHeader.len (readHeader_storeHeader p h)

theorem writeTRX_len_eq (nh : Bool) (e : TRXHeader) (cur : Mem) (l : Bool) (fd : Mem)
    (h : e.len < 2 ^ 32) :
    readU32 (writeTRX nh e cur l fd).currentHeader 4 = (writeTRX nh e cur l fd).expectedHeader.len := by
  unfold writeTRX
  cases nh <;> cases l <;>
    simp only [Bool.false_eq_true, if_false, if_true] <;>
    rw [(finishWrite_len _ _ _).1, (finishWrite_len _ _ _).2.1]
  · rw [readU32_storeHeader_len, Nat.mod_eq_of_lt h]
  · rw [readU32_writeU32_same, readU32_storeHeader_len, Nat.mod_eq_of_lt h, Nat.mod_mod]
  · rw [readU32_memcpy_before _ _ _ _ _ (by norm_num [headerLength]), readU32_storeHeader_len,
      Nat.mod_mod]
  · rw [readU32_memcpy_before _ _ _ _ _ (by norm_num [headerLength]), readU32_storeHeader_len,
      Nat.mod_mod]

theorem writeTRX_crc_eq (nh : Bool) (e : TRXHeader) (cur : Mem) (l : Bool) (fd : Mem) :
    readU32 (writeTRX nh e cur l fd).currentHeader 8 = (writeTRX nh e cur l fd).expectedHeader.crc := by
  unfold writeTRX
  cases nh <;> cases l <;>
    simp only [Bool.false_eq_true, if_false, if_true] <;>
    exact (finishWrite_len _ _ _).2.2

theorem writeTRX_true_len (e : TRXHeader) (cur : Mem) (l : Bool) (fd : Mem) :
    (writeTRX true e cur l fd).expectedHeader.len = (e.len + 28) % 2 ^ 32 := by
  unfold writeTRX
  simp only [if_true]
  rw [(finishWrite_len _ _ _).2.1]
  rfl

theorem validateSize_of_ge (l : Bool) (fd : Mem) (s : State)
    (h : 28 ≤ readU32 s.currentHeader 4) : validateSize l fd s = s := by
  have : ¬ readU32 s.currentHeader 4 < headerLength := by simp only [headerLength]; omega
  simp only [validateSize, this, if_false]

theorem validateLength_of_eq (l : Bool) (fd : Mem) (s : State)
    (h : readU32 s.currentHeader 4 = s.expectedHeader.len) : validateLength l fd s = s := by
  simp only [validateLength, h, if_true]

theorem validateChecksum_of_eq (l : Bool) (fd : Mem) (s : State)
    (h : readU32 s.currentHeader 8 = s.expectedHeader.crc) : validateChecksum l fd s = s := by
  unfold validateChecksum
  split
  · simp only [h, if_true]
  · rfl

theorem repair_settled (nh : Bool) (r : Int) (l : Bool) (fd : Mem) (s : State)
    (h : s.expectedHeader.len < 2 ^ 32) :
    validateChecksum l fd (validateLength l fd (repair nh r l fd s)) = repair nh r l fd s := by
  rw [validateLength_of_eq, validateChecksum_of_eq]
  · exact writeTRX_crc_eq _ _ _ _ _
  · exact writeTRX_len_eq _ _ _ _ _ h

theorem expectedInit_len (size : Nat) (data : Mem) (fh : TRXHeader) :
    (expectedInit size data fh).len = size % 2 ^ 32 := by
  unfold expectedInit
  split <;> rfl

theorem expectedInit_magic (size : Nat) (data : Mem) (fh : TRXHeader) :
    (expectedInit size data fh).magic = TRX_MAGIC := by
  unfold expectedInit
  split <;> rfl

theorem expectedInit_crc (size : Nat) (data : Mem) (fh : TRXHeader) :
    (expectedInit size data fh).crc =
      if size > 28 then calcCRC (ptrAdd data 12) ((size % 2 ^ 32 + 2 ^ 32 - 12) % 2 ^ 32)
      else fh.crc := by
  by_cases h : size > 28 <;> simp only [expectedInit, headerLength, h, if_true, if_false]

/-- The pass on a buffer without the magic: one call of `writeTRX(1, ...)`. -/
theorem validateTRX_noMagic (size : Nat) (data : Mem) (l : Bool) (fh : TRXHeader) (fd : Mem)
    (hs : size < 2 ^ 31) (hm : readU32 data 0 ≠ TRX_MAGIC) :
    validateTRX size data l fh fd =
      repair true (-1) l fd
        { initState size data fh with
          expectedHeader := fallbackHeader (expectedInit size data fh) } := by
  have hlen : (fallbackHeader (expectedInit size data fh)).len = size := by
    show (expectedInit size data fh).len = size
    rw [expectedInit_len]; omega
  unfold validateTRX
  have h1 : validateMagic l fd (initState size data fh) = repair true (-1) l fd
        { initState size data fh with
          expectedHeader := fallbackHeader (expectedInit size data fh) } := by
    unfold validateMagic
    have : ¬ readU32 (initState size data fh).currentHeader 0
        = (initState size data fh).expectedHeader.magic := by
      show ¬ readU32 data 0 = (expectedInit size data fh).magic
      rw [expectedInit_magic]; exact hm
    simp only [this, if_false]
    rfl
  show validateChecksum l fd (validateLength l fd (validateSize l fd
    (validateMagic l fd (initState size data fh)))) = _
  rw [h1, validateSize_of_ge, repair_settled]
  · show (fallbackHeader (expectedInit size data fh)).len < 2 ^ 32
    rw [hlen]; omega
  · show 28 ≤ readU32 (writeTRX true _ _ l fd).currentHeader 4
    rw [writeTRX_len_eq, writeTRX_true_len, hlen]
    · omega
    · rw [hlen]; omega

/-- The pass on a buffer that starts with the magic: no write when the length and the
checksum agree, one call of `writeTRX(0, ...)` otherwise. -/
theorem validateTRX_magic (size : Nat) (data : Mem) (l : Bool) (fh : TRXHeader) (fd : Mem)
    (hm : readU32 data 0 = TRX_MAGIC) :
    validateTRX size data l fh fd =
      if 28 ≤ readU32 data 4 ∧ readU32 data 4 = size % 2 ^ 32
          ∧ readU32 data 8 = (expectedInit size data fh).crc then
        initState size data fh
      else repair false (-2) l fd (initState size data fh) := by
  have hl : (initState size data fh).expectedHeader.len < 2 ^ 32 := by
    show (expectedInit size data fh).len < 2 ^ 32
    rw [expectedInit_len]; omega
  have h1 : validateMagic l fd (initState size data fh) = initState size data fh := by
    unfold validateMagic
    have : readU32 (initState size data fh).currentHeader 0
        = (initState size data fh).expectedHeader.magic := by
      show readU32 data 0 = (expectedInit size data fh).magic
      rw [expectedInit_magic]; exact hm
    simp only [this, if_true]
  show validateChecksum l fd (validateLength l fd (validateSize l fd
    (validateMagic l fd (initState size data fh)))) = _
  rw [h1]
  by_cases h28 : 28 ≤ readU32 data 4
  · rw [validateSize_of_ge _ _ _ h28]
    by_cases hlen : readU32 data 4 = size % 2 ^ 32
    · have hlen2 : readU32 (initState size data fh).currentHeader 4
          = (initState size data fh).expectedHeader.len := by
        show readU32 data 4 = (expectedInit size data fh).len
        rw [expectedInit_len]; exact hlen
      rw [validateLength_of_eq _ _ _ hlen2]
      by_cases hcrc : readU32 data 8 = (expectedInit size data fh).crc
      · rw [validateChecksum_of_eq _ _ _ hcrc, if_pos ⟨h28, hlen, hcrc⟩]
      · have hc : ¬ readU32 (initState size data fh).currentHeader 8
            = (initState size data fh).expectedHeader.crc := hcrc
        have hr : (initState size data fh).retVal ≠ 0 := by show (1 : Int) ≠ 0; decide
        rw [if_neg (fun h => hcrc h.2.2)]
        simp only [validateChecksum, hr, hc, if_false, ne_eq, not_false_eq_true, if_true]
    · have hc : ¬ readU32 (initState size data fh).currentHeader 4
          = (initState size data fh).expectedHeader.len := by
        show ¬ readU32 data 4 = (expectedInit size data fh).len
        rw [expectedInit_len]; exact hlen
      have : validateLength l fd (initState size data fh)
          = repair false (-2) l fd (initState size data fh) := by
        simp only [validateLength, hc, if_false]
      rw [this, validateChecksum_of_eq _ _ _ (writeTRX_crc_eq _ _ _ _ _),
        if_neg (fun h => hlen h.2.1)]
  · have hc : readU32 (initState size data fh).currentHeader 4 < headerLength := by
      show readU32 data 4 < 28; omega
    have : validateSize l fd (initState size data fh)
        = repair false (-2) l fd (initState size data fh) := by
      simp only [validateSize, hc, if_true]
    rw [this, repair_settled _ _ _ _ _ hl, if_neg (fun h => h28 h.1)]



/-! ### Concrete checksums -/

theorem calcCRC_digits : calcCRC (ofBytes digits) 9 = 0x340BC6D9 := by decide

theorem standardCRC32_digits : standardCRC32 digits = 0xCBF43926 := by decide

/-! ## The header layout -/

/-- C10: the object representation of a header whose fields are unsigned 32-bit values
is exactly 28 bytes, holds `magic, len, crc, flags_vers, offsets[0..2]` in this order with
byte `j` of each field being `field / 256^j % 256` (little-endian), and reading the header
back, from these bytes or from any buffer it was copied into, returns the same header. -/
theorem headerBytes_roundtrip (h : TRXHeader) (hu : h.IsU32) :
    (headerBytes h).length = 28
      ∧ (∀ j, j < 4 →
          ((headerBytes h).getD j 0).val = h.magic / 256 ^ j % 256
          ∧ ((headerBytes h).getD (4 + j) 0).val = h.len / 256 ^ j % 256
          ∧ ((headerBytes h).getD (8 + j) 0).val = h.crc / 256 ^ j % 256
          ∧ ((headerBytes h).getD (12 + j) 0).val = h.flags_vers / 256 ^ j % 256
          ∧ ((headerBytes h).getD (16 + j) 0).val = h.offsets0 / 256 ^ j % 256
          ∧ ((headerBytes h).getD (20 + j) 0).val = h.offsets1 / 256 ^ j % 256
          ∧ ((headerBytes h).getD (24 + j) 0).val = h.offsets2 / 256 ^ j % 256)
      ∧ readHeader (ofBytes (headerBytes h)) = h
      ∧ ∀ p, readHeader (storeHeader p h) = h := by
  obtain ⟨h1, h2, h3, h4, h5, h6, h7⟩ := hu
  have hstore : ∀ p, readHeader (storeHeader p h) = h := by
    intro p
    rw [readHeader_storeHeader, Nat.mod_eq_of_lt h1, Nat.mod_eq_of_lt h2, Nat.mod_eq_of_lt h3,
      Nat.mod_eq_of_lt h4, Nat.mod_eq_of_lt h5, Nat.mod_eq_of_lt h6, Nat.mod_eq_of_lt h7]
  refine ⟨rfl, ?_, ?_, hstore⟩
  · intro j hj
    interval_cases j <;>
      simp only [headerBytes, u32Bytes, List.cons_append, List.nil_append, List.getD_cons_zero,
        List.getD_cons_succ, byteOf, Nat.reduceAdd, and_self]
  · have e : readHeader (ofBytes (headerBytes h)) = readHeader (storeHeader zeroMem h) := by
      simp only [readHeader, readU32, storeHeader_apply_lt, Nat.reduceAdd, Nat.reduceLT,
        Nat.zero_add, Nat.lt_add_one, Nat.zero_lt_succ, ofBytes]
    rw [e, hstore]

/-- C10, at a concrete header: the fallback header with `len = 1052` is read back
unchanged from its 28 bytes. -/
theorem headerBytes_roundtrip_witness :
    (⟨TRX_MAGIC, 1052, 0x12345678, 0x10000, 0x1C, 0x0930, 0x1DDD0C⟩ : TRXHeader).IsU32
      ∧ readHeader (ofBytes (headerBytes ⟨TRX_MAGIC, 1052, 0x12345678, 0x10000, 0x1C, 0x0930,
          0x1DDD0C⟩)) = ⟨TRX_MAGIC, 1052, 0x12345678, 0x10000, 0x1C, 0x0930, 0x1DDD0C⟩ :=
  ⟨by simp [TRXHeader.IsU32, TRX_MAGIC],
    (headerBytes_roundtrip _ (by simp [TRXHeader.IsU32, TRX_MAGIC])).2.2.1⟩

/-! ## The checksum -/

/-- C5: for every byte sequence `B` the table-driven `calcCRC` returns the bit-at-a-time
reflected CRC-32 (polynomial `0xEDB88320`, initial value `0xFFFFFFFF`) without the final
complement, that is the standard CRC-32 of `B` xor `0xFFFFFFFF`; on the empty sequence it
returns `0xFFFFFFFF` and on "123456789" it returns `0x340BC6D9` (the standard CRC-32 of
which is `0xCBF43926`). -/
theorem calcCRC_refines (B : List Byte) :
    calcCRC (ofBytes B) B.length = crc32NoComplement B
      ∧ calcCRC (ofBytes B) B.length = standardCRC32 B ^^^ 0xFFFFFFFF
      ∧ calcCRC (ofBytes []) 0 = 0xFFFFFFFF
      ∧ calcCRC (ofBytes digits) digits.length = 0x340BC6D9
      ∧ standardCRC32 digits = 0xCBF43926 := by
  have h : calcCRC (ofBytes B) B.length = crc32NoComplement B := by
    rw [calcCRC_eq_bitwise, readBytes_ofBytes]
  refine ⟨h, ?_, by decide, calcCRC_digits, standardCRC32_digits⟩
  rw [h, standardCRC32, Nat.xor_assoc, Nat.xor_self, Nat.xor_zero]


/-! ## Outcomes of a pass -/

theorem repair_retVal (nh : Bool) (r : Int) (l : Bool) (fd : Mem) (s : State) :
    (repair nh r l fd s).retVal = r := rfl

theorem repair_written (nh : Bool) (r : Int) (l : Bool) (fd : Mem) (s : State) :
    (repair nh r l fd s).written
      = s.written ++ [(writeTRX nh s.expectedHeader s.currentHeader l fd).file] := rfl

theorem expectedInit_crc_of_gt (size : Nat) (data : Mem) (fh : TRXHeader)
    (h28 : 28 < size) (hs : size < 2 ^ 31) :
    (expectedInit size data fh).crc = calcCRC (ptrAdd data 12) (size - 12) := by
  have e : (size % 2 ^ 32 + 2 ^ 32 - 12) % 2 ^ 32 = size - 12 := by omega
  rw [expectedInit_crc, if_pos h28, e]

/-- The return value of the pass `validateTRX`, which runs on as if no call of `calcCRC`
could fault (see `validateTRXChecked_ok` for when that is so): for an input of
`28 < size` bytes (`size` an `int`) and either linksys setting, the return value is 1
exactly when the observed magic is the constant, the observed `len`
is `size` and the observed `crc` is the checksum of bytes `[12, size)`; it is -1 exactly
when the observed magic differs; and it is -2 in every remaining case, in particular
whenever the magic matches and the observed `len` is below 28. -/
theorem validateTRX_outcome (size : Nat) (data : Mem) (linksys : Bool) (freshHeader : TRXHeader)
    (freshData : Mem) (h28 : 28 < size) (hs : size < 2 ^ 31) :
    ((validateTRX size data linksys freshHeader freshData).retVal = 1 ↔
        readU32 data 0 = TRX_MAGIC ∧ readU32 data 4 = size
          ∧ readU32 data 8 = calcCRC (ptrAdd data 12) (size - 12))
      ∧ ((validateTRX size data linksys freshHeader freshData).retVal = -1 ↔
        readU32 data 0 ≠ TRX_MAGIC)
      ∧ ((validateTRX size data linksys freshHeader freshData).retVal = -2 ↔
        readU32 data 0 = TRX_MAGIC ∧ ¬ (readU32 data 4 = size
          ∧ readU32 data 8 = calcCRC (ptrAdd data 12) (size - 12)))
      ∧ (readU32 data 0 = TRX_MAGIC → readU32 data 4 < 28 →
        (validateTRX size data linksys freshHeader freshData).retVal = -2) := by
  have hmod : size % 2 ^ 32 = size := Nat.mod_eq_of_lt (by omega)
  have hcrc := expectedInit_crc_of_gt size data freshHeader h28 hs
  by_cases hm : readU32 data 0 = TRX_MAGIC
  · rw [validateTRX_magic size data linksys freshHeader freshData hm, hmod, hcrc]
    by_cases hv : 28 ≤ readU32 data 4 ∧ readU32 data 4 = size
        ∧ readU32 data 8 = calcCRC (ptrAdd data 12) (size - 12)
    · rw [if_pos hv]
      have h1 : (initState size data freshHeader).retVal = 1 := rfl
      rw [h1]
      refine ⟨⟨fun _ => ⟨hm, hv.2⟩, fun _ => rfl⟩, ⟨fun h => absurd h (by decide),
        fun h => absurd hm h⟩, ⟨fun h => absurd h (by decide), fun h => absurd hv.2 h.2⟩, ?_⟩
      intro _ hlt
      omega
    · rw [if_neg hv, repair_retVal]
      have hv2 : ¬ (readU32 data 4 = size
          ∧ readU32 data 8 = calcCRC (ptrAdd data 12) (size - 12)) := by
        intro h
        exact hv ⟨by omega, h⟩
      refine ⟨⟨fun h => absurd h (by decide), fun h => absurd h.2 hv2⟩,
        ⟨fun h => absurd h (by decide), fun h => absurd hm h⟩,
        ⟨fun _ => ⟨hm, hv2⟩, fun _ => rfl⟩, fun _ _ => rfl⟩
  · rw [validateTRX_noMagic size data linksys freshHeader freshData hs hm, repair_retVal]
    refine ⟨⟨fun h => absurd h (by decide), fun h => absurd h.1 hm⟩,
      ⟨fun _ => hm, fun _ => rfl⟩,
      ⟨fun h => absurd h (by decide), fun h => absurd h.1 hm⟩, fun h => absurd h hm⟩

/-- The writes of the pass `validateTRX`, which runs on as if no call of `calcCRC` could
fault (see `validateTRXChecked_ok` for when that is so): for a buffer of `size < 2^31`
bytes and either linksys setting, one pass hands at most one file to `writeFile`; it
hands exactly one when the return value is not 1, and none when the return value is 1. -/
theorem validateTRX_writes_once (size : Nat) (data : Mem) (linksys : Bool)
    (freshHeader : TRXHeader) (freshData : Mem) (hs : size < 2 ^ 31) :
    (validateTRX size data linksys freshHeader freshData).written.length ≤ 1
      ∧ ((validateTRX size data linksys freshHeader freshData).retVal ≠ 1 →
        (validateTRX size data linksys freshHeader freshData).written.length = 1)
      ∧ ((validateTRX size data linksys freshHeader freshData).retVal = 1 →
        (validateTRX size data linksys freshHeader freshData).written = []) := by
  have hw : ∀ nh r s, s.written = [] →
      (repair nh r linksys freshData s).written.length = 1 := by
    intro nh r s h
    rw [repair_written, h]
    rfl
  by_cases hm : readU32 data 0 = TRX_MAGIC
  · rw [validateTRX_magic size data linksys freshHeader freshData hm]
    split
    · exact ⟨Nat.zero_le _, fun h => absurd rfl h, fun _ => rfl⟩
    · rw [repair_retVal, hw _ _ _ rfl]
      exact ⟨Nat.le_refl _, fun _ => rfl, fun h => absurd h (by decide)⟩
  · rw [validateTRX_noMagic size data linksys freshHeader freshData hs hm, repair_retVal,
      hw _ _ _ rfl]
    exact ⟨Nat.le_refl _, fun _ => rfl, fun h => absurd h (by decide)⟩

/-! ## The new-header repair -/

theorem readBytes_length (p : Mem) (n : Nat) : (readBytes p n).length = n := by
  simp [readBytes]

theorem readBytes_getD (p : Mem) (n i : Nat) (h : i < n) : (readBytes p n).getD i 0 = p i := by
  simp [readBytes, List.getD_eq_getElem?_getD, List.getElem?_range h]

theorem readBytes_congr (p q : Mem) (n : Nat) (h : ∀ i, i < n → p i = q i) :
    readBytes p n = readBytes q n := by
  apply List.map_congr_left
  intro i hi
  exact h i (List.mem_range.mp hi)

theorem readBytes_add (p : Mem) (a b : Nat) :
    readBytes p (a + b) = readBytes p a ++ readBytes (ptrAdd p a) b := by
  apply List.ext_getElem
  · simp [readBytes_length]
  · intro i h1 h2
    rw [readBytes_length] at h1
    by_cases hi : i < a
    · rw [List.getElem_append_left (by rw [readBytes_length]; exact hi)]
      simp [readBytes]
    · rw [List.getElem_append_right (by rw [readBytes_length]; omega)]
      simp only [readBytes, List.getElem_map, List.getElem_range, List.length_map,
        List.length_range, ptrAdd]
      congr 1
      omega

theorem calcCRC_congr (p q : Mem) (n : Nat) (h : readBytes p n = readBytes q n) :
    calcCRC p n = calcCRC q n := by
  rw [calcCRC_eq_bitwise, calcCRC_eq_bitwise, h]

theorem foldl_bitwiseByte_lt (B : List Byte) (crc : Nat) (h : crc < 2 ^ 32) :
    B.foldl bitwiseByte crc < 2 ^ 32 := by
  induction B generalizing crc with
  | nil => exact h
  | cons b B ih => exact ih _ (bitwiseByte_lt crc b h)

theorem calcCRC_lt (p : Mem) (n : Nat) : calcCRC p n < 2 ^ 32 := by
  rw [calcCRC_eq_bitwise]
  exact foldl_bitwiseByte_lt _ _ (by norm_num)

theorem byteOf_readU32 (p : Mem) (off : Nat) :
    byteOf (readU32 p off) 0 = p off ∧ byteOf (readU32 p off) 1 = p (off + 1)
      ∧ byteOf (readU32 p off) 2 = p (off + 2) ∧ byteOf (readU32 p off) 3 = p (off + 3) := by
  have h0 := (p off).isLt
  have h1 := (p (off + 1)).isLt
  have h2 := (p (off + 2)).isLt
  have h3 := (p (off + 3)).isLt
  refine ⟨?_, ?_, ?_, ?_⟩ <;>
    · apply Fin.ext
      simp only [byteOf, readU32]
      norm_num
      omega

theorem headerBytes_readHeader (p : Mem) : headerBytes (readHeader p) = readBytes p 28 := by
  simp only [headerBytes, readHeader, u32Bytes, byteOf_readU32, readBytes]
  rfl


theorem newBuffer_readHeader (fd cur : Mem) (e : TRXHeader) (n c : Nat) :
    readHeader (writeU32 (memcpy (storeHeader fd e) 28 cur n) 8 c) =
      { magic := e.magic % 2 ^ 32, len := e.len % 2 ^ 32, crc := c % 2 ^ 32,
        flags_vers := e.flags_vers % 2 ^ 32, offsets0 := e.offsets0 % 2 ^ 32,
        offsets1 := e.offsets1 % 2 ^ 32, offsets2 := e.offsets2 % 2 ^ 32 } := by
  have hs := readHeader_storeHeader fd e
  simp only [readHeader, TRXHeader.mk.injEq] at hs ⊢
  obtain ⟨h0, h1, h2, h3, h4, h5, h6⟩ := hs
  refine ⟨?_, ?_, readU32_writeU32_same _ _ _, ?_, ?_, ?_, ?_⟩
  · rw [readU32_writeU32_other _ _ _ _ (Or.inl (by norm_num)),
      readU32_memcpy_before _ _ _ _ _ (by norm_num), h0]
  · rw [readU32_writeU32_other _ _ _ _ (Or.inl (by norm_num)),
      readU32_memcpy_before _ _ _ _ _ (by norm_num), h1]
  · rw [readU32_writeU32_other _ _ _ _ (Or.inr (by norm_num)),
      readU32_memcpy_before _ _ _ _ _ (by norm_num), h3]
  · rw [readU32_writeU32_other _ _ _ _ (Or.inr (by norm_num)),
      readU32_memcpy_before _ _ _ _ _ (by norm_num), h4]
  · rw [readU32_writeU32_other _ _ _ _ (Or.inr (by norm_num)),
      readU32_memcpy_before _ _ _ _ _ (by norm_num), h5]
  · rw [readU32_writeU32_other _ _ _ _ (Or.inr (by norm_num)),
      readU32_memcpy_before _ _ _ _ _ (by norm_num), h6]

theorem newBuffer_payload (fd cur : Mem) (e : TRXHeader) (n c i : Nat) (h : i < n) :
    (writeU32 (memcpy (storeHeader fd e) 28 cur n) 8 c) (i + 28) = cur i := by
  have h1 : ¬ (8 ≤ i + 28 ∧ i + 28 < 8 + 4) := by omega
  have h2 : 28 ≤ i + 28 ∧ i + 28 < 28 + n := by omega
  simp only [writeU32, memcpy, h1, h2, if_false, if_true, and_self, Nat.add_sub_cancel]

theorem newBuffer_tail (p : Mem) (c : Nat) :
    readBytes (ptrAdd (writeU32 p 8 c) 12) 16 = readBytes (ptrAdd p 12) 16 := by
  apply readBytes_congr
  intro i _
  have h1 : ¬ (8 ≤ i + 12 ∧ i + 12 < 8 + 4) := by omega
  simp only [ptrAdd, writeU32, h1, if_false]

theorem writeTRX_true_unfold (e : TRXHeader) (cur : Mem) (l : Bool) (fd : Mem) :
    writeTRX true e cur l fd =
      finishWrite e.len { e with len := (e.len + 28) % 2 ^ 32 }
        (memcpy (storeHeader fd { e with len := (e.len + 28) % 2 ^ 32 }) 28 cur
          ((e.len + 28) % 2 ^ 32)) := by
  simp only [writeTRX, if_true, headerLength]

theorem fallback_len (size : Nat) (data : Mem) (fh : TRXHeader) (hs : size < 2 ^ 31) :
    (fallbackHeader (expectedInit size data fh)).len = size := by
  show (expectedInit size data fh).len = size
  rw [expectedInit_len]
  omega

/-- The buffer `newData` built by `writeTRX(1, ...)` during a pass over a buffer without
the magic, before the checksum is stored into it. -/
theorem noMagic_currentHeader (size : Nat) (data : Mem) (l : Bool) (fh : TRXHeader) (fd : Mem)
    (hs : size < 2 ^ 31) (hm : readU32 data 0 ≠ TRX_MAGIC) :
    (validateTRX size data l fh fd).currentHeader =
      writeU32
        (memcpy (storeHeader fd { fallbackHeader (expectedInit size data fh) with
          len := size + 28 }) 28 data (size + 28)) 8
        (calcCRC (ptrAdd (memcpy (storeHeader fd { fallbackHeader (expectedInit size data fh) with
          len := size + 28 }) 28 data (size + 28)) 12) (size + 16)) := by
  have hlen := fallback_len size data fh hs
  have e1 : (size + 28) % 2 ^ 32 = size + 28 := Nat.mod_eq_of_lt (by omega)
  rw [validateTRX_noMagic size data l fh fd hs hm]
  show (writeTRX true (fallbackHeader (expectedInit size data fh)) data l fd).currentHeader = _
  rw [writeTRX_true_unfold, finishWrite_currentHeader, hlen, e1,
    readU32_memcpy_before _ _ _ _ _ (by norm_num), readU32_storeHeader_len]
  have e2 : ((size + 28) % 2 ^ 32 + 2 ^ 32 - 12) % 2 ^ 32 = size + 16 := by omega
  show writeU32 _ 8 (calcCRC _ (((size + 28) % 2 ^ 32 + 2 ^ 32 - 12) % 2 ^ 32)) = _
  rw [e2]


/-- C4: after a pass over a buffer of `size` bytes whose magic does not match, the header
at the start of the repaired buffer reads magic `0x30524448`, `len = size + 28`,
`flags_vers = 0x10000`, `offsets = [0x1C, 0x0930, 0x1DDD0C]`; the buffer is this header
followed by the `size` original bytes; its `crc` field is the checksum of bytes
`[12, size + 28)` of the buffer, that is of the 16 header bytes from `flags_vers` on
followed by the original bytes; and `expectedHeader.crc` holds the same value. -/
theorem newHeader_fields (size : Nat) (data : Mem) (linksys : Bool) (freshHeader : TRXHeader)
    (freshData : Mem) (hs : size < 2 ^ 31) (hm : readU32 data 0 ≠ TRX_MAGIC) :
    readHeader (validateTRX size data linksys freshHeader freshData).currentHeader =
        { magic := 0x30524448, len := size + 28,
          crc := calcCRC (ofBytes (fallbackTail ++ readBytes data size)) (size + 16),
          flags_vers := 0x10000, offsets0 := 0x1C, offsets1 := 0x0930, offsets2 := 0x1DDD0C }
      ∧ readBytes (validateTRX size data linksys freshHeader freshData).currentHeader (size + 28)
        = headerBytes (readHeader
            (validateTRX size data linksys freshHeader freshData).currentHeader)
          ++ readBytes data size
      ∧ readU32 (validateTRX size data linksys freshHeader freshData).currentHeader 8
        = calcCRC (ptrAdd (validateTRX size data linksys freshHeader freshData).currentHeader 12)
            (size + 28 - 12)
      ∧ (validateTRX size data linksys freshHeader freshData).expectedHeader.crc
        = readU32 (validateTRX size data linksys freshHeader freshData).currentHeader 8 := by
  have hcur := noMagic_currentHeader size data linksys freshHeader freshData hs hm
  generalize hnd : memcpy (storeHeader freshData
      { fallbackHeader (expectedInit size data freshHeader) with len := size + 28 }) 28 data
      (size + 28) = nd at hcur
  -- the header fields
  have hhdr : readHeader (validateTRX size data linksys freshHeader freshData).currentHeader =
      { magic := 0x30524448, len := size + 28, crc := calcCRC (ptrAdd nd 12) (size + 16),
        flags_vers := 0x10000, offsets0 := 0x1C, offsets1 := 0x0930, offsets2 := 0x1DDD0C } := by
    rw [hcur, ← hnd, newBuffer_readHeader]
    have hmagic : (fallbackHeader (expectedInit size data freshHeader)).magic = TRX_MAGIC :=
      expectedInit_magic size data freshHeader
    simp only [TRXHeader.mk.injEq]
    refine ⟨?_, Nat.mod_eq_of_lt (by omega), Nat.mod_eq_of_lt (calcCRC_lt _ _), rfl, rfl, rfl, rfl⟩
    show (fallbackHeader (expectedInit size data freshHeader)).magic % 2 ^ 32 = _
    rw [hmagic]
    rfl
  -- the original bytes follow the header
  have hpay : readBytes
      (ptrAdd (validateTRX size data linksys freshHeader freshData).currentHeader 28) size
        = readBytes data size := by
    apply readBytes_congr
    intro i hi
    rw [hcur, ← hnd]
    exact newBuffer_payload _ _ _ _ _ _ (by omega)
  have hbuf : readBytes (validateTRX size data linksys freshHeader freshData).currentHeader
      (size + 28) = headerBytes (readHeader
        (validateTRX size data linksys freshHeader freshData).currentHeader)
          ++ readBytes data size := by
    rw [headerBytes_readHeader, Nat.add_comm size 28, readBytes_add, hpay]
  -- the checksummed range
  have htail : readBytes (ptrAdd nd 12) (16 + size) = fallbackTail ++ readBytes data size := by
    have h1 : readBytes (ptrAdd nd 12) 16 = fallbackTail := by
      have h2 := headerBytes_readHeader
        (validateTRX size data linksys freshHeader freshData).currentHeader
      rw [hhdr, show (28 : Nat) = 12 + 16 from rfl, readBytes_add, hcur, newBuffer_tail] at h2
      have h3 := congrArg (List.drop 12) h2
      rw [List.drop_left' (readBytes_length _ _)] at h3
      rw [← h3]
      rfl
    have h4 : readBytes (ptrAdd (ptrAdd nd 12) 16) size = readBytes data size := by
      rw [← hpay, hcur]
      apply readBytes_congr
      intro i _
      have h1 : ¬ (8 ≤ i + 28 ∧ i + 28 < 8 + 4) := by omega
      simp only [ptrAdd, writeU32, h1, if_false]
    rw [readBytes_add, h1, h4]
  have hcrc : calcCRC (ptrAdd nd 12) (size + 16)
      = calcCRC (ofBytes (fallbackTail ++ readBytes data size)) (size + 16) := by
    apply calcCRC_congr
    have hl : (fallbackTail ++ readBytes data size).length = size + 16 := by
      rw [List.length_append, readBytes_length, Nat.add_comm]
      rfl
    have := readBytes_ofBytes (fallbackTail ++ readBytes data size)
    rw [hl] at this
    rw [this, Nat.add_comm size 16, htail]
  refine ⟨by rw [hhdr, hcrc], hbuf, ?_, ?_⟩
  · have h8 := congrArg TRXHeader.crc hhdr
    have e : size + 28 - 12 = size + 16 := by omega
    rw [e]
    refine Eq.trans h8 (calcCRC_congr _ _ _ ?_)
    rw [hcur]
    apply readBytes_congr
    intro i _
    have h1 : ¬ (8 ≤ i + 12 ∧ i + 12 < 8 + 4) := by omega
    simp only [ptrAdd, writeU32, h1, if_false]
  · rw [validateTRX_noMagic size data linksys freshHeader freshData hs hm]
    exact (writeTRX_crc_eq _ _ _ _ _).symm


/-- C4 at a concrete input: the pass over 32 zero bytes leaves a header whose `len` field
is 60. -/
theorem newHeader_fields_witness :
    32 < 2 ^ 31 ∧ readU32 zeroMem 0 ≠ TRX_MAGIC
      ∧ (readHeader (validateTRX 32 zeroMem false zeroHeader zeroMem).currentHeader).len = 60 :=
  ⟨by decide, by decide,
    congrArg TRXHeader.len
      (newHeader_fields 32 zeroMem false zeroHeader zeroMem (by decide) (by decide)).1⟩

/-! ## The file handed to `writeFile` -/

theorem writeTRX_file (nh : Bool) (e : TRXHeader) (cur : Mem) (l : Bool) (fd : Mem) :
    (writeTRX nh e cur l fd).file = readBytes (writeTRX nh e cur l fd).currentHeader e.len := by
  unfold writeTRX
  cases nh <;> cases l <;>
    simp only [Bool.false_eq_true, if_false, if_true] <;>
    exact finishWrite_file _ _ _

theorem writeTRX_false_len (e : TRXHeader) (cur : Mem) (l : Bool) (fd : Mem) :
    (writeTRX false e cur l fd).expectedHeader.len
      = if l then (e.len + 2 ^ 32 - 978) % 2 ^ 32 else e.len := by
  unfold writeTRX
  cases l <;>
    simp only [Bool.false_eq_true, if_false, if_true] <;>
    exact (finishWrite_len _ _ _).2.1

theorem readU32_ofBytes_readBytes (p : Mem) (n off : Nat) (h : off + 4 ≤ n) :
    readU32 (ofBytes (readBytes p n)) off = readU32 p off := by
  simp only [readU32, ofBytes]
  rw [readBytes_getD p n off (by omega), readBytes_getD p n (off + 1) (by omega),
    readBytes_getD p n (off + 2) (by omega), readBytes_getD p n (off + 3) (by omega)]

/-- The file written by a pass over a buffer without the magic: `size` bytes of the new
buffer, whose `len` field reads `size + 28`. -/
theorem noMagic_written (size : Nat) (data : Mem) (l : Bool) (fh : TRXHeader) (fd : Mem)
    (hs : size < 2 ^ 31) (hm : readU32 data 0 ≠ TRX_MAGIC) :
    (validateTRX size data l fh fd).written
        = [readBytes (validateTRX size data l fh fd).currentHeader size]
      ∧ readU32 (validateTRX size data l fh fd).currentHeader 4 = size + 28 := by
  have hlen := fallback_len size data fh hs
  rw [validateTRX_noMagic size data l fh fd hs hm]
  constructor
  · rw [repair_written]
    show [] ++ [(writeTRX true (fallbackHeader (expectedInit size data fh)) data l fd).file] = _
    rw [writeTRX_file, hlen]
    rfl
  · show readU32 (writeTRX true (fallbackHeader (expectedInit size data fh)) data l fd).currentHeader
      4 = _
    rw [writeTRX_len_eq _ _ _ _ _ (by rw [hlen]; omega), writeTRX_true_len, hlen]
    omega

/-- The file written by a pass over a buffer that starts with the magic and whose `len`
field is not the size: `size` bytes whose `len` field is the size, or the size less 978
modulo `2^32` in linksys mode. -/
theorem overwrite_written (size : Nat) (data : Mem) (l : Bool) (fh : TRXHeader) (fd : Mem)
    (h8 : 8 ≤ size) (hs : size < 2 ^ 31) (hm : readU32 data 0 = TRX_MAGIC)
    (hl : readU32 data 4 ≠ size) :
    ∃ f, (validateTRX size data l fh fd).written = [f] ∧ f.length = size
      ∧ readU32 (ofBytes f) 4 = if l then (size + 2 ^ 32 - 978) % 2 ^ 32 else size := by
  have hmod : size % 2 ^ 32 = size := Nat.mod_eq_of_lt (by omega)
  have hlen : (initState size data fh).expectedHeader.len = size := by
    show (expectedInit size data fh).len = size
    rw [expectedInit_len, hmod]
  rw [validateTRX_magic size data l fh fd hm, if_neg (fun h => hl (by rw [h.2.1, hmod])),
    repair_written]
  refine ⟨_, rfl, ?_, ?_⟩
  · rw [writeTRX_file, readBytes_length, hlen]
  · rw [writeTRX_file, hlen, readU32_ofBytes_readBytes _ _ _ (by omega),
      writeTRX_len_eq _ _ _ _ _ (by rw [hlen]; omega), writeTRX_false_len, hlen]


/-! ## Inputs on which the pass departs from the specification -/

/-- C1 fails at length exactly 28: the 28-byte file `header28` carries the magic,
`len = 28` and the checksum of its bytes `[12, 28)`, yet the pass (with a zero-filled
`expectedHeader` block) returns -2 and writes a file (the very same 28 bytes), because
the expected checksum is computed only when `size > 28`. -/
theorem header28_not_valid :
    header28.length = 28
      ∧ readU32 (ofBytes header28) 0 = TRX_MAGIC
      ∧ readU32 (ofBytes header28) 4 = 28
      ∧ readU32 (ofBytes header28) 8 = calcCRC (ptrAdd (ofBytes header28) 12) (28 - 12)
      ∧ (validateTRX 28 (ofBytes header28) false zeroHeader zeroMem).retVal = -2
      ∧ (validateTRX 28 (ofBytes header28) false zeroHeader zeroMem).written = [header28] := by
  decide

/-- C2 fails on 32 zero bytes: the pass writes a 32-byte file whose `len` field says 60,
and a second pass over that file returns -2 and writes again. -/
theorem repair_not_idempotent :
    readU32 zeroMem 0 ≠ TRX_MAGIC
      ∧ ∃ out, (validateTRX 32 zeroMem false zeroHeader zeroMem).written = [out]
        ∧ out.length = 32
        ∧ readU32 (ofBytes out) 4 = 60
        ∧ (validateTRX out.length (ofBytes out) false zeroHeader zeroMem).retVal = -2
        ∧ (validateTRX out.length (ofBytes out) false zeroHeader zeroMem).written.length = 1 :=
  ⟨by decide,
    [72, 68, 82, 48, 60, 0, 0, 0, 117, 213, 248, 30, 0, 0, 1, 0, 28, 0, 0, 0, 48, 9, 0, 0,
      12, 221, 29, 0, 0, 0, 0, 0],
    by decide, by decide, by decide, by decide, by decide⟩

/-- C3 fails on 1024 zero bytes: the single file written is 1024 bytes long, not 1052,
while the `len` field of its header says 1052. -/
theorem newHeader_file_short :
    readU32 zeroMem 0 ≠ TRX_MAGIC
      ∧ ∃ out, (validateTRX 1024 zeroMem false zeroHeader zeroMem).written = [out]
        ∧ out.length = 1024
        ∧ out.length ≠ 1024 + 28
        ∧ readU32 (ofBytes out) 4 = 1052 := by
  have h := noMagic_written 1024 zeroMem false zeroHeader zeroMem (by decide) (by decide)
  refine ⟨by decide, _, h.1, ?_, ?_, ?_⟩
  · rw [readBytes_length]
  · rw [readBytes_length]
    decide
  · rw [readU32_ofBytes_readBytes _ _ _ (by decide), h.2]

/-- The `len` field in linksys mode where nothing wraps: for a buffer of
`990 ≤ size < 2^31` bytes that starts with the magic
and whose `len` field is not `size`, the file written in linksys mode has the `len` field
`size - 978`, which is 978 less than the `len` field `size` written without linksys
mode. -/
theorem linksys_len_978 (size : Nat) (data : Mem) (freshHeader : TRXHeader) (freshData : Mem)
    (h990 : 990 ≤ size) (hs : size < 2 ^ 31) (hm : readU32 data 0 = TRX_MAGIC)
    (hl : readU32 data 4 ≠ size) :
    ∃ fOn fOff, (validateTRX size data true freshHeader freshData).written = [fOn]
      ∧ (validateTRX size data false freshHeader freshData).written = [fOff]
      ∧ readU32 (ofBytes fOn) 4 = size - 978
      ∧ readU32 (ofBytes fOff) 4 = size
      ∧ readU32 (ofBytes fOn) 4 + 978 = readU32 (ofBytes fOff) 4 := by
  obtain ⟨fOn, h1, _, h3⟩ := overwrite_written size data true freshHeader freshData (by omega)
    hs hm hl
  obtain ⟨fOff, k1, _, k3⟩ := overwrite_written size data false freshHeader freshData (by omega)
    hs hm hl
  have e : (size + 2 ^ 32 - 978) % 2 ^ 32 = size - 978 := by omega
  simp only [if_true, Bool.false_eq_true, if_false] at h3 k3
  rw [e] at h3
  exact ⟨fOn, fOff, h1, k1, h3, k3, by rw [h3, k3]; omega⟩

/-- C9 fails: for the 1000-byte file `magicOnly` the file written in linksys mode is 1000
bytes long and its `len` field is 22, that is 978 less than the file size and not 932
less. -/
theorem linksys_len_not_932 :
    readU32 magicOnly 0 = TRX_MAGIC
      ∧ ∃ f, (validateTRX 1000 magicOnly true zeroHeader zeroMem).written = [f]
        ∧ f.length = 1000
        ∧ readU32 (ofBytes f) 4 = 22
        ∧ readU32 (ofBytes f) 4 = f.length - 978
        ∧ readU32 (ofBytes f) 4 ≠ f.length - 932 := by
  obtain ⟨f, h1, h2, h3⟩ := overwrite_written 1000 magicOnly true zeroHeader zeroMem
    (by decide) (by decide) (by decide) (by decide)
  have h4 : readU32 (ofBytes f) 4 = 22 := by rw [h3]; decide
  exact ⟨by decide, f, h1, h2, h4, by rw [h4, h2], by rw [h4, h2]; decide⟩

/-! ## The table across calls -/

theorem tableAfter_cases (calls : List (Mem × Nat)) :
    tableAfter calls = none ∨ tableAfter calls = some buildTable := by
  have gen : ∀ (cs : List (Mem × Nat)) (st : Option (List Nat)),
      (st = none ∨ st = some buildTable) →
      (cs.foldl (fun crc32 c => (calcCRCFrom crc32 c.1 c.2).2) st = none
        ∨ cs.foldl (fun crc32 c => (calcCRCFrom crc32 c.1 c.2).2) st = some buildTable) := by
    intro cs
    induction cs with
    | nil => intro st h; exact h
    | cons c cs ih =>
      intro st h
      rw [List.foldl_cons]
      apply ih
      right
      rcases h with h | h <;> rw [h] <;> rfl
  exact gen calls none (Or.inl rfl)

theorem buildTable_length : buildTable.length = 256 := by
  simp [buildTable]

/-- C11: whatever calls of `calcCRC` came before (none, or any number on any inputs),
a call returns the same checksum as a first call that builds the table, that checksum
is a function of the `length` bytes read alone, and the table left behind is the same
256 entries `crc32[i] = crcTableEntry i`. -/
theorem calcCRC_pure (calls : List (Mem × Nat)) (data : Mem) (length : Nat) :
    (calcCRCFrom (tableAfter calls) data length).1 = (calcCRCFrom none data length).1
      ∧ (calcCRCFrom (tableAfter calls) data length).1
          = crc32NoComplement (readBytes data length)
      ∧ (∀ data2, readBytes data2 length = readBytes data length →
          (calcCRCFrom (tableAfter calls) data2 length).1
            = (calcCRCFrom none data length).1)
      ∧ (calcCRCFrom (tableAfter calls) data length).2 = some buildTable
      ∧ buildTable.length = 256
      ∧ ∀ i, i < 256 → buildTable.getD i 0 = crcTableEntry i := by
  have h1 : ∀ p, (calcCRCFrom (tableAfter calls) p length).1 = calcCRC p length := by
    intro p
    rcases tableAfter_cases calls with h | h <;> rw [h]
    · rfl
    · exact (calcCRCFrom_built p length).2.2
  have h2 : (calcCRCFrom (tableAfter calls) data length).2 = some buildTable := by
    rcases tableAfter_cases calls with h | h <;> rw [h]
    · exact (calcCRCFrom_built data length).1
    · exact (calcCRCFrom_built data length).2.1
  refine ⟨h1 data, ?_, ?_, h2, buildTable_length, buildTable_getD⟩
  · rw [h1, calcCRC_eq_bitwise]
  · intro data2 hd
    rw [h1]
    exact calcCRC_congr _ _ _ hd

/-- C11 at a concrete sequence: after a call on "123456789", a call on four zero bytes
returns what a first call returns. -/
theorem calcCRC_pure_witness :
    (calcCRCFrom (tableAfter [(ofBytes digits, 9)]) zeroMem 4).1
      = (calcCRCFrom none zeroMem 4).1 :=
  (calcCRC_pure [(ofBytes digits, 9)] zeroMem 4).1

/-! ## The new-header repair: what reaches the file -/

theorem readBytes_take (p : Mem) (m n : Nat) (h : m ≤ n) :
    (readBytes p n).take m = readBytes p m := by
  have e : n = m + (n - m) := by omega
  rw [e, readBytes_add, List.take_left' (readBytes_length p m)]

/-- The original bytes lie behind the new header in the buffer of a pass over a buffer
without the magic. -/
theorem noMagic_payload (size : Nat) (data : Mem) (l : Bool) (fh : TRXHeader) (fd : Mem)
    (hs : size < 2 ^ 31) (hm : readU32 data 0 ≠ TRX_MAGIC) (i : Nat) (hi : i < size + 28) :
    (validateTRX size data l fh fd).currentHeader (i + 28) = data i := by
  rw [noMagic_currentHeader size data l fh fd hs hm]
  exact newBuffer_payload _ _ _ _ _ _ hi

theorem noMagic_buffer (size : Nat) (data : Mem) (l : Bool) (fh : TRXHeader) (fd : Mem)
    (hs : size < 2 ^ 31) (hm : readU32 data 0 ≠ TRX_MAGIC) (k : Nat) (hk : k ≤ size + 28) :
    readBytes (validateTRX size data l fh fd).currentHeader (28 + k)
      = headerBytes (readHeader (validateTRX size data l fh fd).currentHeader)
        ++ readBytes data k := by
  rw [headerBytes_readHeader, readBytes_add]
  congr 1
  apply readBytes_congr
  intro i hi
  exact noMagic_payload size data l fh fd hs hm i (by omega)

/-- The pass over a buffer without the magic does not depend on the linksys flag. -/
theorem noMagic_linksys (size : Nat) (data : Mem) (fh : TRXHeader) (fd : Mem)
    (hs : size < 2 ^ 31) (hm : readU32 data 0 ≠ TRX_MAGIC) :
    validateTRX size data true fh fd = validateTRX size data false fh fd := by
  rw [validateTRX_noMagic size data true fh fd hs hm,
    validateTRX_noMagic size data false fh fd hs hm]
  simp only [repair, writeTRX_true_unfold]

/-- C14: for a buffer of `size` bytes without the magic the single file handed to
`writeFile` has exactly `size` bytes (the length before the bump by 28): it is the first
`size` bytes of the new 28-byte header followed by the original bytes, hence for
`size ≥ 28` the new header followed by the first `size - 28` original bytes, while the
`len` field of that header says `size + 28`. -/
theorem newHeader_file_truncated (size : Nat) (data : Mem) (linksys : Bool)
    (freshHeader : TRXHeader) (freshData : Mem) (hs : size < 2 ^ 31)
    (hm : readU32 data 0 ≠ TRX_MAGIC) :
    ∃ f, (validateTRX size data linksys freshHeader freshData).written = [f]
      ∧ f.length = size
      ∧ f = (headerBytes (readHeader
              (validateTRX size data linksys freshHeader freshData).currentHeader)
            ++ readBytes data size).take size
      ∧ (28 ≤ size →
          f = headerBytes (readHeader
                (validateTRX size data linksys freshHeader freshData).currentHeader)
              ++ readBytes data (size - 28))
      ∧ (readHeader (validateTRX size data linksys freshHeader freshData).currentHeader).len
          = size + 28 := by
  have hw := noMagic_written size data linksys freshHeader freshData hs hm
  refine ⟨_, hw.1, readBytes_length _ _, ?_, ?_, hw.2⟩
  · rw [← noMagic_buffer size data linksys freshHeader freshData hs hm size (by omega),
      readBytes_take _ _ _ (by omega)]
  · intro h28
    rw [← noMagic_buffer size data linksys freshHeader freshData hs hm (size - 28) (by omega)]
    congr 1
    omega

/-- C14 at a concrete input: the pass over 32 zero bytes writes one file of 32 bytes. -/
theorem newHeader_file_truncated_witness :
    32 < 2 ^ 31 ∧ readU32 zeroMem 0 ≠ TRX_MAGIC
      ∧ ∃ f, (validateTRX 32 zeroMem false zeroHeader zeroMem).written = [f]
        ∧ f.length = 32 :=
  ⟨by decide, by decide,
    (newHeader_file_truncated 32 zeroMem false zeroHeader zeroMem (by decide) (by decide)).imp
      (fun _ h => ⟨h.1, h.2.1⟩)⟩

/-- C19: for a buffer of `size` bytes whose magic does not match, the pass with linksys
on ends in the same state as the pass with linksys off: the same file is written, the
`len` field of the new header is `size + 28` (nothing is subtracted), and the return
value is -1. -/
theorem noMagic_ignores_linksys (size : Nat) (data : Mem) (freshHeader : TRXHeader)
    (freshData : Mem) (hs : size < 2 ^ 31) (hm : readU32 data 0 ≠ TRX_MAGIC) :
    validateTRX size data true freshHeader freshData
        = validateTRX size data false freshHeader freshData
      ∧ (validateTRX size data true freshHeader freshData).written
        = (validateTRX size data false freshHeader freshData).written
      ∧ (validateTRX size data true freshHeader freshData).written
        = [readBytes (validateTRX size data true freshHeader freshData).currentHeader size]
      ∧ readU32 (validateTRX size data true freshHeader freshData).currentHeader 4 = size + 28
      ∧ readU32 (validateTRX size data false freshHeader freshData).currentHeader 4 = size + 28
      ∧ (validateTRX size data true freshHeader freshData).retVal = -1
      ∧ (validateTRX size data false freshHeader freshData).retVal = -1 := by
  have e := noMagic_linksys size data freshHeader freshData hs hm
  have hon := noMagic_written size data true freshHeader freshData hs hm
  have hoff := noMagic_written size data false freshHeader freshData hs hm
  refine ⟨e, by rw [e], hon.1, hon.2, hoff.2, ?_, ?_⟩
  · rw [validateTRX_noMagic size data true freshHeader freshData hs hm, repair_retVal]
  · rw [validateTRX_noMagic size data false freshHeader freshData hs hm, repair_retVal]

/-- C19 at a concrete input: 32 zero bytes, where both passes return -1. -/
theorem noMagic_ignores_linksys_witness :
    32 < 2 ^ 31 ∧ readU32 zeroMem 0 ≠ TRX_MAGIC
      ∧ (validateTRX 32 zeroMem true zeroHeader zeroMem).written
        = (validateTRX 32 zeroMem false zeroHeader zeroMem).written
      ∧ (validateTRX 32 zeroMem true zeroHeader zeroMem).retVal = -1 :=
  ⟨by decide, by decide,
    (noMagic_ignores_linksys 32 zeroMem zeroHeader zeroMem (by decide) (by decide)).2.1,
    (noMagic_ignores_linksys 32 zeroMem zeroHeader zeroMem (by decide) (by decide)).2.2.2.2.2.1⟩

/-! ## The overwrite repair -/

theorem writeTRX_currentHeader (nh : Bool) (e : TRXHeader) (cur : Mem) (l : Bool) (fd : Mem) :
    (writeTRX nh e cur l fd).currentHeader
      = writeU32 (writeTRXBuffer nh e cur l fd) 8
          (calcCRC (ptrAdd (writeTRXBuffer nh e cur l fd) 12)
            (crcLength (writeTRXBuffer nh e cur l fd))) := by
  unfold writeTRX writeTRXBuffer crcLength
  cases nh <;> cases l <;>
    simp only [Bool.false_eq_true, if_false, if_true] <;>
    exact finishWrite_currentHeader _ _ _

theorem writeU32_apply_other (p : Mem) (off v i : Nat) (h : i < off ∨ off + 4 ≤ i) :
    writeU32 p off v i = p i := by
  have : ¬ (off ≤ i ∧ i < off + 4) := by omega
  simp only [writeU32, this, if_false]

theorem writeTRX_apply (nh : Bool) (e : TRXHeader) (cur : Mem) (l : Bool) (fd : Mem) (i : Nat)
    (h : i < 8 ∨ 12 ≤ i) :
    (writeTRX nh e cur l fd).currentHeader i = writeTRXBuffer nh e cur l fd i := by
  rw [writeTRX_currentHeader]
  exact writeU32_apply_other _ _ _ _ (by omega)

theorem readU32_congr (p q : Mem) (off : Nat) (h : ∀ i, off ≤ i → i < off + 4 → p i = q i) :
    readU32 p off = readU32 q off := by
  simp only [readU32]
  rw [h off (by omega) (by omega), h (off + 1) (by omega) (by omega),
    h (off + 2) (by omega) (by omega), h (off + 3) (by omega) (by omega)]

/-- After any call of `writeTRX` the `crc` field of the buffer is the checksum of the
`len - 12` bytes (modulo `2^32`) that follow it, `len` being the buffer's own field. -/
theorem writeTRX_crc_value (nh : Bool) (e : TRXHeader) (cur : Mem) (l : Bool) (fd : Mem) :
    readU32 (writeTRX nh e cur l fd).currentHeader 8
      = calcCRC (ptrAdd (writeTRX nh e cur l fd).currentHeader 12)
          (crcLength (writeTRX nh e cur l fd).currentHeader) := by
  have h4 : readU32 (writeTRX nh e cur l fd).currentHeader 4
      = readU32 (writeTRXBuffer nh e cur l fd) 4 :=
    readU32_congr _ _ _ (fun i _ _ => writeTRX_apply nh e cur l fd i (by omega))
  have hc : ∀ n, calcCRC (ptrAdd (writeTRX nh e cur l fd).currentHeader 12) n
      = calcCRC (ptrAdd (writeTRXBuffer nh e cur l fd) 12) n := by
    intro n
    apply calcCRC_congr
    apply readBytes_congr
    intro i _
    exact writeTRX_apply nh e cur l fd (i + 12) (by omega)
  rw [hc]
  unfold crcLength
  rw [h4]
  conv_lhs => rw [writeTRX_currentHeader]
  rw [readU32_writeU32_same]
  exact Nat.mod_eq_of_lt (calcCRC_lt _ _)

theorem writeTRXBuffer_false_apply (e : TRXHeader) (cur : Mem) (l : Bool) (fd : Mem) (i : Nat)
    (h : i < 4 ∨ 8 ≤ i) :
    writeTRXBuffer false e cur l fd i = storeHeader cur e i := by
  unfold writeTRXBuffer
  cases l <;> simp only [Bool.false_eq_true, if_false, if_true]
  exact writeU32_apply_other _ _ _ _ (by omega)

/-- A pass over a buffer that starts with the magic and does not return 1 is one call of
`writeTRX(0, ...)` from the initial state. -/
theorem validateTRX_overwrite (size : Nat) (data : Mem) (l : Bool) (fh : TRXHeader) (fd : Mem)
    (hm : readU32 data 0 = TRX_MAGIC) (hr : (validateTRX size data l fh fd).retVal ≠ 1) :
    validateTRX size data l fh fd = repair false (-2) l fd (initState size data fh) := by
  rw [validateTRX_magic size data l fh fd hm] at hr ⊢
  split
  · rename_i h
    rw [if_pos h] at hr
    exact absurd rfl hr
  · rfl

theorem expectedInit_tail (size : Nat) (data : Mem) (fh : TRXHeader) :
    (expectedInit size data fh).flags_vers = readU32 data 12
      ∧ (expectedInit size data fh).offsets0 = readU32 data 16
      ∧ (expectedInit size data fh).offsets1 = readU32 data 20
      ∧ (expectedInit size data fh).offsets2 = readU32 data 24 := by
  unfold expectedInit
  exact ⟨rfl, rfl, rfl, rfl⟩

/-- Copying the expected header over a buffer that starts with the magic changes no byte
outside the `len` and `crc` fields. -/
theorem storeHeader_expectedInit_apply (size : Nat) (data : Mem) (fh : TRXHeader)
    (hm : readU32 data 0 = TRX_MAGIC) (i : Nat) (h : i < 4 ∨ 12 ≤ i) :
    storeHeader data (expectedInit size data fh) i = data i := by
  by_cases h28 : 28 ≤ i
  · exact storeHeader_apply_ge _ _ _ h28
  · have hlt : i < 28 := by omega
    rw [storeHeader_apply_lt _ _ _ hlt]
    obtain ⟨t0, t1, t2, t3⟩ := expectedInit_tail size data fh
    have tm : (expectedInit size data fh).magic = readU32 data 0 := by
      rw [expectedInit_magic, hm]
    obtain ⟨a0, a1, a2, a3⟩ := byteOf_readU32 data 0
    obtain ⟨b0, b1, b2, b3⟩ := byteOf_readU32 data 12
    obtain ⟨c0, c1, c2, c3⟩ := byteOf_readU32 data 16
    obtain ⟨d0, d1, d2, d3⟩ := byteOf_readU32 data 20
    obtain ⟨e0, e1, e2, e3⟩ := byteOf_readU32 data 24
    simp only [headerBytes, u32Bytes, tm, t0, t1, t2, t3, a0, a1, a2, a3, b0, b1, b2, b3,
      c0, c1, c2, c3, d0, d1, d2, d3, e0, e1, e2, e3, List.cons_append, List.nil_append]
    interval_cases i <;>
      first
        | omega
        | simp only [List.getD_cons_zero, List.getD_cons_succ, Nat.reduceAdd, Nat.zero_add]

/-- The buffer after the overwrite repair agrees with the input outside bytes `[4, 12)`. -/
theorem overwrite_apply (size : Nat) (data : Mem) (l : Bool) (fh : TRXHeader) (fd : Mem)
    (hm : readU32 data 0 = TRX_MAGIC) (hr : (validateTRX size data l fh fd).retVal ≠ 1)
    (i : Nat) (h : i < 4 ∨ 12 ≤ i) :
    (validateTRX size data l fh fd).currentHeader i = data i := by
  rw [validateTRX_overwrite size data l fh fd hm hr]
  show (writeTRX false (expectedInit size data fh) data l fd).currentHeader i = data i
  rw [writeTRX_apply _ _ _ _ _ _ (by omega), writeTRXBuffer_false_apply _ _ _ _ _ (by omega),
    storeHeader_expectedInit_apply size data fh hm i h]

/-- The file handed to `writeFile` by the overwrite repair, and the `len` and `crc`
fields left in the buffer and in `expectedHeader`. -/
theorem overwrite_state (size : Nat) (data : Mem) (l : Bool) (fh : TRXHeader) (fd : Mem)
    (hs : size < 2 ^ 31) (hm : readU32 data 0 = TRX_MAGIC)
    (hr : (validateTRX size data l fh fd).retVal ≠ 1) :
    (validateTRX size data l fh fd).written
        = [readBytes (validateTRX size data l fh fd).currentHeader size]
      ∧ (validateTRX size data l fh fd).retVal = -2
      ∧ readU32 (validateTRX size data l fh fd).currentHeader 4
          = (if l then (size + 2 ^ 32 - 978) % 2 ^ 32 else size)
      ∧ (validateTRX size data l fh fd).expectedHeader.len
          = readU32 (validateTRX size data l fh fd).currentHeader 4
      ∧ (validateTRX size data l fh fd).expectedHeader.crc
          = readU32 (validateTRX size data l fh fd).currentHeader 8
      ∧ readU32 (validateTRX size data l fh fd).currentHeader 8
          = calcCRC (ptrAdd (validateTRX size data l fh fd).currentHeader 12)
              (crcLength (validateTRX size data l fh fd).currentHeader) := by
  have hmod : size % 2 ^ 32 = size := Nat.mod_eq_of_lt (by omega)
  have hlen : (initState size data fh).expectedHeader.len = size := by
    show (expectedInit size data fh).len = size
    rw [expectedInit_len, hmod]
  have hlt : (initState size data fh).expectedHeader.len < 2 ^ 32 := by rw [hlen]; omega
  rw [validateTRX_overwrite size data l fh fd hm hr]
  have h4 := writeTRX_len_eq false (initState size data fh).expectedHeader
    (initState size data fh).currentHeader l fd hlt
  refine ⟨?_, rfl, ?_, h4.symm, (writeTRX_crc_eq _ _ _ _ _).symm, writeTRX_crc_value _ _ _ _ _⟩
  · rw [repair_written]
    show [] ++ [_] = _
    rw [writeTRX_file, hlen]
    rfl
  · show readU32 (writeTRX false (initState size data fh).expectedHeader
      (initState size data fh).currentHeader l fd).currentHeader 4 = _
    rw [h4, writeTRX_false_len, hlen]

theorem ofBytes_readBytes_apply (p : Mem) (n i : Nat) (h : i < n) :
    ofBytes (readBytes p n) i = p i :=
  readBytes_getD p n i h

/-- The bytes the overwrite repair leaves alone, in the pass `validateTRX` that runs on as
if no call of `calcCRC` could fault (see `validateTRXChecked_ok` for when that is so):
for a buffer of `28 ≤ size` bytes that starts with the magic and on which the pass
returns -2 (the overwrite repair), with either linksys setting, the single file
written has `size` bytes and agrees with the input on bytes `[12, size)` and on bytes
`[0, 4)`: `flags_vers`, the three offsets and the payload pass through, and only the
`len` and `crc` fields (bytes `[4, 12)`) can differ. -/
theorem overwrite_frame (size : Nat) (data : Mem) (linksys : Bool) (freshHeader : TRXHeader)
    (freshData : Mem) (h28 : 28 ≤ size) (hs : size < 2 ^ 31)
    (hm : readU32 data 0 = TRX_MAGIC)
    (hr : (validateTRX size data linksys freshHeader freshData).retVal = -2) :
    ∃ f, (validateTRX size data linksys freshHeader freshData).written = [f]
      ∧ f.length = size
      ∧ (∀ i, 12 ≤ i → i < size → f.getD i 0 = data i)
      ∧ (∀ i, i < 4 → f.getD i 0 = data i)
      ∧ readU32 (ofBytes f) 12 = readU32 data 12
      ∧ readU32 (ofBytes f) 16 = readU32 data 16
      ∧ readU32 (ofBytes f) 20 = readU32 data 20
      ∧ readU32 (ofBytes f) 24 = readU32 data 24 := by
  have hr1 : (validateTRX size data linksys freshHeader freshData).retVal ≠ 1 := by
    rw [hr]; decide
  have hst := overwrite_state size data linksys freshHeader freshData hs hm hr1
  have hb : ∀ i, i < size → (i < 4 ∨ 12 ≤ i) →
      (readBytes (validateTRX size data linksys freshHeader freshData).currentHeader size).getD
        i 0 = data i := by
    intro i hi h
    rw [readBytes_getD _ _ _ hi]
    exact overwrite_apply size data linksys freshHeader freshData hm hr1 i h
  have hf : ∀ off, 12 ≤ off → off + 4 ≤ size →
      readU32 (ofBytes (readBytes
        (validateTRX size data linksys freshHeader freshData).currentHeader size)) off
        = readU32 data off := by
    intro off h1 h2
    apply readU32_congr
    intro i hi1 hi2
    exact hb i (by omega) (Or.inr (by omega))
  exact ⟨_, hst.1, readBytes_length _ _, fun i h1 h2 => hb i h2 (Or.inr h1),
    fun i h => hb i (by omega) (Or.inl h), hf 12 (by omega) (by omega),
    hf 16 (by omega) (by omega), hf 20 (by omega) (by omega), hf 24 (by omega) (by omega)⟩

/-- A buffer that starts with the magic and whose `len` field is not the size makes the
pass return -2. -/
theorem retVal_of_len_ne (size : Nat) (data : Mem) (l : Bool) (fh : TRXHeader) (fd : Mem)
    (hm : readU32 data 0 = TRX_MAGIC) (hl : readU32 data 4 ≠ size % 2 ^ 32) :
    (validateTRX size data l fh fd).retVal = -2 := by
  rw [validateTRX_magic size data l fh fd hm, if_neg (fun h => hl h.2.1), repair_retVal]

/-- The header written by the overwrite repair where the checksum range does not wrap:
for a buffer of `size` bytes that starts with the magic and on which the pass returns -2
(the overwrite repair), let `L = size` with linksys off, where
`12 ≤ size`, and `L = size - 978` with linksys on, where `990 ≤ size`.  The header of
the written file has the magic `0x30524448`, `len = L` and `crc` the checksum of bytes
`[12, L)` of the file, and `expectedHeader.len` and `expectedHeader.crc` hold the same
`L` and `crc` afterwards. -/
theorem overwrite_header (size : Nat) (data : Mem) (linksys : Bool) (freshHeader : TRXHeader)
    (freshData : Mem) (hs : size < 2 ^ 31) (hm : readU32 data 0 = TRX_MAGIC)
    (hr : (validateTRX size data linksys freshHeader freshData).retVal = -2)
    (hoff : linksys = false → 12 ≤ size) (hon : linksys = true → 990 ≤ size) :
    ∃ f, (validateTRX size data linksys freshHeader freshData).written = [f]
      ∧ f.length = size
      ∧ readU32 (ofBytes f) 0 = 0x30524448
      ∧ readU32 (ofBytes f) 4 = (if linksys then size - 978 else size)
      ∧ readU32 (ofBytes f) 8
          = calcCRC (ptrAdd (ofBytes f) 12) ((if linksys then size - 978 else size) - 12)
      ∧ (validateTRX size data linksys freshHeader freshData).expectedHeader.len
          = (if linksys then size - 978 else size)
      ∧ (validateTRX size data linksys freshHeader freshData).expectedHeader.crc
          = readU32 (ofBytes f) 8
      ∧ f = readBytes (validateTRX size data linksys freshHeader freshData).currentHeader size
      ∧ readU32 (validateTRX size data linksys freshHeader freshData).currentHeader 8
          = calcCRC (ptrAdd (validateTRX size data linksys freshHeader freshData).currentHeader
              12) ((if linksys then size - 978 else size) - 12) := by
  have hr1 : (validateTRX size data linksys freshHeader freshData).retVal ≠ 1 := by
    rw [hr]; decide
  obtain ⟨hw, _, h4, hel, hec, hcrc⟩ :=
    overwrite_state size data linksys freshHeader freshData hs hm hr1
  have h12 : 12 ≤ size := by
    cases linksys
    · exact hoff rfl
    · have := hon rfl; omega
  have hL : (if linksys then (size + 2 ^ 32 - 978) % 2 ^ 32 else size)
      = (if linksys then size - 978 else size) := by
    cases linksys
    · simp only [Bool.false_eq_true, if_false]
    · have := hon rfl
      simp only [if_true]
      omega
  have hL12 : 12 ≤ (if linksys then size - 978 else size)
      ∧ (if linksys then size - 978 else size) ≤ size := by
    cases linksys
    · simp only [Bool.false_eq_true, if_false]; omega
    · have := hon rfl
      simp only [if_true]; omega
  rw [hL] at h4
  have hfile : ∀ off, off + 4 ≤ size →
      readU32 (ofBytes (readBytes
        (validateTRX size data linksys freshHeader freshData).currentHeader size)) off
        = readU32 (validateTRX size data linksys freshHeader freshData).currentHeader off :=
    fun off h => readU32_ofBytes_readBytes _ _ _ h
  have h0 : readU32 (validateTRX size data linksys freshHeader freshData).currentHeader 0
      = TRX_MAGIC := by
    rw [← hm]
    exact readU32_congr _ _ _ (fun i _ _ =>
      overwrite_apply size data linksys freshHeader freshData hm hr1 i (Or.inl (by omega)))
  have hcl : crcLength (validateTRX size data linksys freshHeader freshData).currentHeader
      = (if linksys then size - 978 else size) - 12 := by
    unfold crcLength
    rw [h4]
    omega
  have hcrc2 : calcCRC (ptrAdd (ofBytes (readBytes
        (validateTRX size data linksys freshHeader freshData).currentHeader size)) 12)
        ((if linksys then size - 978 else size) - 12)
      = calcCRC (ptrAdd (validateTRX size data linksys freshHeader freshData).currentHeader 12)
        ((if linksys then size - 978 else size) - 12) := by
    apply calcCRC_congr
    apply readBytes_congr
    intro i hi
    exact ofBytes_readBytes_apply _ _ _ (by omega)
  refine ⟨_, hw, readBytes_length _ _, ?_, ?_, ?_, ?_, ?_, rfl, ?_⟩
  · rw [hfile 0 (by omega), h0]; rfl
  · rw [hfile 4 (by omega), h4]
  · rw [hfile 8 (by omega), hcrc2, hcrc, hcl]
  · rw [hel, h4]
  · rw [hfile 8 (by omega), hec]
  · rw [hcrc, hcl]

/-! ### Passes that end in the overwrite repair -/

theorem retVal_of_len_lt (size : Nat) (data : Mem) (l : Bool) (fh : TRXHeader) (fd : Mem)
    (hm : readU32 data 0 = TRX_MAGIC) (hl : readU32 data 4 < 28) :
    (validateTRX size data l fh fd).retVal = -2 := by
  rw [validateTRX_magic size data l fh fd hm, if_neg (fun h => absurd h.1 (by omega)),
    repair_retVal]

/-! ## Validating the repaired file again -/

/-- C17: for a buffer of `28 < size` bytes that starts with the magic and on which the
pass with linksys off does not return 1 (observed `len` below 28, `len` not `size`, or a
wrong `crc`), the pass writes one file of `size` bytes, and a pass over any buffer that
holds this file returns 1 and writes nothing. -/
theorem overwrite_idempotent (size : Nat) (data : Mem) (freshHeader : TRXHeader)
    (freshData : Mem) (h28 : 28 < size) (hs : size < 2 ^ 31)
    (hm : readU32 data 0 = TRX_MAGIC)
    (hr : (validateTRX size data false freshHeader freshData).retVal ≠ 1) :
    ∃ f, (validateTRX size data false freshHeader freshData).written = [f]
      ∧ f.length = size
      ∧ ∀ (data2 : Mem) (linksys2 : Bool) (freshHeader2 : TRXHeader) (freshData2 : Mem),
          (∀ i, i < size → data2 i = f.getD i 0) →
          (validateTRX size data2 linksys2 freshHeader2 freshData2).retVal = 1
            ∧ (validateTRX size data2 linksys2 freshHeader2 freshData2).written = [] := by
  obtain ⟨hw, _, h4, _, _, hcrc⟩ :=
    overwrite_state size data false freshHeader freshData hs hm hr
  simp only [Bool.false_eq_true, if_false] at h4
  have hcl : crcLength (validateTRX size data false freshHeader freshData).currentHeader
      = size - 12 := by
    unfold crcLength
    rw [h4]
    omega
  refine ⟨_, hw, readBytes_length _ _, ?_⟩
  intro data2 l2 fh2 fd2 hag
  have hag2 : ∀ i, i < size →
      data2 i = (validateTRX size data false freshHeader freshData).currentHeader i := by
    intro i hi
    rw [hag i hi, readBytes_getD _ _ _ hi]
  have r0 : readU32 data2 0 = TRX_MAGIC := by
    rw [readU32_congr data2 _ 0 (fun i _ h => hag2 i (by omega)), ← hm]
    exact readU32_congr _ _ _ (fun i _ _ =>
      overwrite_apply size data false freshHeader freshData hm hr i (Or.inl (by omega)))
  have r4 : readU32 data2 4 = size := by
    rw [readU32_congr data2 _ 4 (fun i _ h => hag2 i (by omega)), h4]
  have r8 : readU32 data2 8 = (expectedInit size data2 fh2).crc := by
    rw [readU32_congr data2 _ 8 (fun i _ h => hag2 i (by omega)), hcrc, hcl,
      expectedInit_crc_of_gt size data2 fh2 h28 hs]
    apply calcCRC_congr
    apply readBytes_congr
    intro i hi
    exact (hag2 (i + 12) (by omega)).symm
  have hmod : size % 2 ^ 32 = size := Nat.mod_eq_of_lt (by omega)
  rw [validateTRX_magic size data2 l2 fh2 fd2 r0,
    if_pos ⟨by rw [r4]; omega, by rw [r4, hmod], r8⟩]
  exact ⟨rfl, rfl⟩

/-- C17 at a concrete input: the 32-byte file `magicOnly` is repaired into one file. -/
theorem overwrite_idempotent_witness :
    28 < 32 ∧ 32 < 2 ^ 31 ∧ readU32 magicOnly 0 = TRX_MAGIC
      ∧ (validateTRX 32 magicOnly false zeroHeader zeroMem).retVal ≠ 1
      ∧ ∃ f, (validateTRX 32 magicOnly false zeroHeader zeroMem).written = [f]
        ∧ f.length = 32
        ∧ (validateTRX 32 (ofBytes f) false zeroHeader zeroMem).retVal = 1 :=
  ⟨by decide, by decide, by decide, by decide,
    (overwrite_idempotent 32 magicOnly zeroHeader zeroMem (by decide) (by decide) (by decide)
      (by decide)).imp
      (fun _ h => ⟨h.1, h.2.1, (h.2.2 _ false zeroHeader zeroMem (fun _ _ => rfl)).1⟩)⟩

/-! ## The byte count handed to `calcCRC` by the overwrite repair -/

theorem overwrite_buffer_len (size : Nat) (data : Mem) (l : Bool) (fh : TRXHeader) (fd : Mem)
    (hs : size < 2 ^ 31) :
    readU32 (writeTRXBuffer false (expectedInit size data fh) data l fd) 4
      = (if l then (size + 2 ^ 32 - 978) % 2 ^ 32 else size) := by
  have hmod : size % 2 ^ 32 = size := Nat.mod_eq_of_lt (by omega)
  unfold writeTRXBuffer
  cases l <;> simp only [Bool.false_eq_true, if_false, if_true]
  · rw [readU32_storeHeader_len, expectedInit_len, hmod, hmod]
  · rw [readU32_writeU32_same, readU32_storeHeader_len, expectedInit_len, hmod, hmod,
      Nat.mod_mod]

/-- The call of `calcCRC` made by the overwrite repair during a pass over a buffer that
starts with the magic: it starts at offset 12 of the buffer and is given `crcLength`
bytes to read. -/
theorem overwrite_call (size : Nat) (data : Mem) (l : Bool) (fh : TRXHeader) (fd : Mem)
    (hm : readU32 data 0 = TRX_MAGIC) (hr : (validateTRX size data l fh fd).retVal ≠ 1) :
    (validateTRX size data l fh fd).currentHeader
      = writeU32 (writeTRXBuffer false (expectedInit size data fh) data l fd) 8
          (calcCRC (ptrAdd (writeTRXBuffer false (expectedInit size data fh) data l fd) 12)
            (crcLength (writeTRXBuffer false (expectedInit size data fh) data l fd))) := by
  rw [validateTRX_overwrite size data l fh fd hm hr]
  exact writeTRX_currentHeader false (expectedInit size data fh) data l fd

theorem overwrite_call_linksys (size : Nat) (data : Mem) (fh : TRXHeader) (fd : Mem)
    (hs : size < 978) :
    readU32 (writeTRXBuffer false (expectedInit size data fh) data true fd) 4
        = size + 4294966318
      ∧ crcLength (writeTRXBuffer false (expectedInit size data fh) data true fd)
        = size + 4294966306 := by
  have h := overwrite_buffer_len size data true fh fd (by omega)
  simp only [if_true] at h
  have e : (size + 2 ^ 32 - 978) % 2 ^ 32 = size + 4294966318 := by omega
  rw [e] at h
  refine ⟨h, ?_⟩
  unfold crcLength
  rw [h]
  omega

theorem overwrite_call_small (size : Nat) (data : Mem) (fh : TRXHeader) (fd : Mem)
    (hs : size < 12) :
    readU32 (writeTRXBuffer false (expectedInit size data fh) data false fd) 4 = size
      ∧ crcLength (writeTRXBuffer false (expectedInit size data fh) data false fd)
        = size + 4294967284 := by
  have h := overwrite_buffer_len size data false fh fd (by omega)
  simp only [Bool.false_eq_true, if_false] at h
  refine ⟨h, ?_⟩
  unfold crcLength
  rw [h]
  omega

/-- C13 fails in the overwrite repair.  For the 100-byte file `magicOnly` in linksys
mode the `len` field becomes `100 - 978` modulo `2^32` and `calcCRC` is handed
`100 + 4294966306` bytes from offset 12 of a buffer of 101 bytes; for the 8-byte file
`magicOnly` with linksys off the `len` field is 8, below 12, and `calcCRC` is handed
`8 - 12` modulo `2^32`, that is `8 + 4294967284` bytes. -/
theorem checksum_range_wraps :
    readU32 magicOnly 0 = TRX_MAGIC
      ∧ (validateTRX 100 magicOnly true zeroHeader zeroMem).retVal = -2
      ∧ (validateTRX 100 magicOnly true zeroHeader zeroMem).currentHeader
        = writeU32 (writeTRXBuffer false (expectedInit 100 magicOnly zeroHeader) magicOnly
              true zeroMem) 8
            (calcCRC (ptrAdd (writeTRXBuffer false (expectedInit 100 magicOnly zeroHeader)
                magicOnly true zeroMem) 12)
              (crcLength (writeTRXBuffer false (expectedInit 100 magicOnly zeroHeader)
                magicOnly true zeroMem)))
      ∧ readU32 (writeTRXBuffer false (expectedInit 100 magicOnly zeroHeader) magicOnly
            true zeroMem) 4 = 100 + 4294966318
      ∧ crcLength (writeTRXBuffer false (expectedInit 100 magicOnly zeroHeader) magicOnly
            true zeroMem) = 100 + 4294966306
      ∧ 100 + 1 < 12 + (100 + 4294966306)
      ∧ (validateTRX 8 magicOnly false zeroHeader zeroMem).retVal = -2
      ∧ (validateTRX 8 magicOnly false zeroHeader zeroMem).currentHeader
        = writeU32 (writeTRXBuffer false (expectedInit 8 magicOnly zeroHeader) magicOnly
              false zeroMem) 8
            (calcCRC (ptrAdd (writeTRXBuffer false (expectedInit 8 magicOnly zeroHeader)
                magicOnly false zeroMem) 12)
              (crcLength (writeTRXBuffer false (expectedInit 8 magicOnly zeroHeader)
                magicOnly false zeroMem)))
      ∧ readU32 (writeTRXBuffer false (expectedInit 8 magicOnly zeroHeader) magicOnly
            false zeroMem) 4 = 8
      ∧ crcLength (writeTRXBuffer false (expectedInit 8 magicOnly zeroHeader) magicOnly
            false zeroMem) = 8 + 4294967284
      ∧ 8 + 1 < 12 + (8 + 4294967284) :=
  ⟨by decide,
    retVal_of_len_lt 100 magicOnly true zeroHeader zeroMem (by decide) (by decide),
    overwrite_call 100 magicOnly true zeroHeader zeroMem (by decide)
      (ne_of_eq_of_ne
        (retVal_of_len_lt 100 magicOnly true zeroHeader zeroMem (by decide) (by decide))
        (by decide)),
    (overwrite_call_linksys 100 magicOnly zeroHeader zeroMem (by decide)).1,
    (overwrite_call_linksys 100 magicOnly zeroHeader zeroMem (by decide)).2,
    by decide,
    retVal_of_len_lt 8 magicOnly false zeroHeader zeroMem (by decide) (by decide),
    overwrite_call 8 magicOnly false zeroHeader zeroMem (by decide)
      (ne_of_eq_of_ne
        (retVal_of_len_lt 8 magicOnly false zeroHeader zeroMem (by decide) (by decide))
        (by decide)),
    (overwrite_call_small 8 magicOnly zeroHeader zeroMem (by decide)).1,
    (overwrite_call_small 8 magicOnly zeroHeader zeroMem (by decide)).2,
    by decide⟩

/-! ## Single-byte corruption -/

theorem reflectedShift_injective (x y : Nat) (hx : x < 2 ^ 32) (hy : y < 2 ^ 32)
    (h : reflectedShift x = reflectedShift y) : x = y := by
  have hx2 : x / 2 < 2 ^ 31 := by omega
  have hy2 : y / 2 < 2 ^ 31 := by omega
  have hp : ¬ (3988292384 : Nat) < 2 ^ 31 := by norm_num
  unfold reflectedShift at h
  rcases Nat.mod_two_eq_zero_or_one x with ex | ex <;>
    rcases Nat.mod_two_eq_zero_or_one y with ey | ey <;>
    simp only [ex, ey, Nat.zero_ne_one, if_false, if_true] at h
  · omega
  · exfalso
    have h2 : x / 2 ^^^ y / 2 = 3988292384 := by
      rw [h, Nat.xor_assoc, Nat.xor_comm, Nat.xor_assoc, Nat.xor_self, Nat.xor_zero]
    exact hp (h2 ▸ Nat.xor_lt_two_pow hx2 hy2)
  · exfalso
    have h2 : x / 2 ^^^ y / 2 = 3988292384 := by
      rw [← h, Nat.xor_cancel_left]
    exact hp (h2 ▸ Nat.xor_lt_two_pow hx2 hy2)
  · have h2 : x / 2 = y / 2 := Nat.xor_left_inj.mp h
    omega

theorem iterate_reflectedShift_injective (k x y : Nat) (hx : x < 2 ^ 32) (hy : y < 2 ^ 32)
    (h : Nat.iterate reflectedShift k x = Nat.iterate reflectedShift k y) : x = y := by
  induction k generalizing x y with
  | zero => exact h
  | succ k ih =>
    rw [Function.iterate_succ_apply, Function.iterate_succ_apply] at h
    exact reflectedShift_injective x y hx hy
      (ih _ _ (reflectedShift_lt x hx) (reflectedShift_lt y hy) h)

theorem byte_lt (b : Byte) : b.val < 2 ^ 32 := by
  have := b.isLt
  omega

theorem bitwiseByte_inj_acc (a a' : Nat) (b : Byte) (ha : a < 2 ^ 32) (ha' : a' < 2 ^ 32)
    (h : bitwiseByte a b = bitwiseByte a' b) : a = a' :=
  Nat.xor_left_inj.mp (iterate_reflectedShift_injective 8 _ _
    (Nat.xor_lt_two_pow ha (byte_lt b)) (Nat.xor_lt_two_pow ha' (byte_lt b)) h)

theorem bitwiseByte_inj_byte (a : Nat) (b b' : Byte) (ha : a < 2 ^ 32)
    (h : bitwiseByte a b = bitwiseByte a b') : b = b' :=
  Fin.ext (Nat.xor_right_inj.mp (iterate_reflectedShift_injective 8 _ _
    (Nat.xor_lt_two_pow ha (byte_lt b)) (Nat.xor_lt_two_pow ha (byte_lt b')) h))

theorem foldl_bitwiseByte_inj (B : List Byte) (a a' : Nat) (ha : a < 2 ^ 32)
    (ha' : a' < 2 ^ 32) (h : B.foldl bitwiseByte a = B.foldl bitwiseByte a') : a = a' := by
  induction B generalizing a a' with
  | nil => exact h
  | cons b B ih =>
    rw [List.foldl_cons, List.foldl_cons] at h
    exact bitwiseByte_inj_acc a a' b ha ha'
      (ih _ _ (bitwiseByte_lt a b ha) (bitwiseByte_lt a' b ha') h)

theorem list_eq_of_getD (A B : List Byte) (hlen : A.length = B.length)
    (h : ∀ j, A.getD j 0 = B.getD j 0) : A = B := by
  apply List.ext_getElem hlen
  intro j h1 h2
  have := h j
  rwa [List.getD_eq_getElem _ _ h1, List.getD_eq_getElem _ _ h2] at this

theorem foldl_single_byte (A B : List Byte) (acc k : Nat) (hacc : acc < 2 ^ 32)
    (hlen : A.length = B.length) (hk : k < A.length) (hne : A.getD k 0 ≠ B.getD k 0)
    (hsame : ∀ j, j ≠ k → A.getD j 0 = B.getD j 0) :
    A.foldl bitwiseByte acc ≠ B.foldl bitwiseByte acc := by
  induction A generalizing B acc k with
  | nil => exact absurd hk (Nat.not_lt_zero _)
  | cons a A ih =>
    cases B with
    | nil => exact absurd hlen (by simp)
    | cons b B =>
      have hlen2 : A.length = B.length := by simpa using hlen
      rw [List.foldl_cons, List.foldl_cons]
      cases k with
      | zero =>
        have hab : a ≠ b := by simpa using hne
        have hAB : A = B := by
          apply list_eq_of_getD A B hlen2
          intro j
          have := hsame (j + 1) (by omega)
          simpa using this
        rw [hAB]
        intro h
        exact hab (bitwiseByte_inj_byte acc a b hacc
          (foldl_bitwiseByte_inj B _ _ (bitwiseByte_lt acc a hacc) (bitwiseByte_lt acc b hacc) h))
      | succ k =>
        have hab : a = b := by simpa using hsame 0 (by omega)
        rw [hab]
        apply ih B (bitwiseByte acc b) k (bitwiseByte_lt acc b hacc) hlen2
        · simpa using hk
        · simpa using hne
        · intro j hj
          have := hsame (j + 1) (by omega)
          simpa using this

/-- C18: two byte sequences of the same length that differ in exactly one position have
different checksums; and on 32-bit accumulators one table-driven update step is
injective in the accumulator for a fixed byte and injective in the byte for a fixed
accumulator. -/
theorem calcCRC_detects_single_byte (A B : List Byte) (hlen : A.length = B.length) (k : Nat)
    (hk : k < A.length) (hne : A.getD k 0 ≠ B.getD k 0)
    (hsame : ∀ j, j ≠ k → A.getD j 0 = B.getD j 0) :
    calcCRC (ofBytes A) A.length ≠ calcCRC (ofBytes B) B.length
      ∧ (∀ (acc acc' : Nat) (b : Byte), acc < 2 ^ 32 → acc' < 2 ^ 32 →
          crcStep buildTable acc b = crcStep buildTable acc' b → acc = acc')
      ∧ (∀ (acc : Nat) (b b' : Byte), acc < 2 ^ 32 →
          crcStep buildTable acc b = crcStep buildTable acc b' → b = b') := by
  refine ⟨?_, ?_, ?_⟩
  · rw [calcCRC_eq_bitwise, calcCRC_eq_bitwise, readBytes_ofBytes, readBytes_ofBytes]
    exact foldl_single_byte A B _ k (by norm_num) hlen hk hne hsame
  · intro acc acc' b h1 h2 h
    rw [crcStep_eq_bitwiseByte acc b h1, crcStep_eq_bitwiseByte acc' b h2] at h
    exact bitwiseByte_inj_acc acc acc' b h1 h2 h
  · intro acc b b' h1 h
    rw [crcStep_eq_bitwiseByte acc b h1, crcStep_eq_bitwiseByte acc b' h1] at h
    exact bitwiseByte_inj_byte acc b b' h1 h

/-- C18 at a concrete input: "123456789" and the same digits with the fifth replaced by
a zero byte. -/
theorem calcCRC_detects_single_byte_witness :
    calcCRC (ofBytes digits) digits.length
      ≠ calcCRC (ofBytes [0x31, 0x32, 0x33, 0x34, 0, 0x36, 0x37, 0x38, 0x39]) 9 :=
  (calcCRC_detects_single_byte digits [0x31, 0x32, 0x33, 0x34, 0, 0x36, 0x37, 0x38, 0x39]
    (by decide) 4 (by decide) (by decide)
    (fun j hj => by
      have h9 : j < 9 ∨ 9 ≤ j := Nat.lt_or_ge j 9
      rcases h9 with h | h
      · interval_cases j <;> first | exact absurd rfl hj | rfl
      · rw [List.getD_eq_default _ _ (by simpa [digits] using h),
          List.getD_eq_default _ _ (by simpa using h)])).1

/-! ## The checked pass -/

theorem bind_ok {ε α β : Type} (a : α) (f : α → Except ε β) : (Except.ok a).bind f = f a :=
  rfl

theorem bind_error {ε α β : Type} (e : ε) (f : α → Except ε β) :
    (Except.error e : Except ε α).bind f = Except.error e :=
  rfl

theorem map_ok {ε α β : Type} (a : α) (f : α → β) :
    (Except.ok a : Except ε α).map f = Except.ok (f a) :=
  rfl

theorem map_error {ε α β : Type} (e : ε) (f : α → β) :
    (Except.error e : Except ε α).map f = Except.error e :=
  rfl

theorem initChecked_ok (size : Nat) (data : Mem) (fh : TRXHeader) (hs : size < 2 ^ 31) :
    initChecked size data fh
      = Except.ok { state := initState size data fh, block := size + 1 } := by
  unfold initChecked
  split
  · rename_i h
    simp only [headerLength] at h
    have : 12 + (size % 2 ^ 32 + 2 ^ 32 - 12) % 2 ^ 32 ≤ size + 1 := by omega
    rw [if_pos this]
  · rfl

theorem repairChecked_false (r : Int) (l : Bool) (fd : Mem) (c : Checked) :
    repairChecked false r l fd c =
      if 12 + crcLength (writeTRXBuffer false c.state.expectedHeader c.state.currentHeader
          l fd) ≤ c.block then
        Except.ok { state := repair false r l fd c.state, block := c.block }
      else Except.error c.state.written := by
  simp only [repairChecked, Bool.false_eq_true, if_false]

theorem repairChecked_true (r : Int) (l : Bool) (fd : Mem) (c : Checked) :
    repairChecked true r l fd c =
      if 12 + crcLength (writeTRXBuffer true c.state.expectedHeader c.state.currentHeader
          l fd) ≤ ((c.state.expectedHeader.len + 28) % 2 ^ 32 + 28) % 2 ^ 32 then
        Except.ok { state := repair true r l fd c.state,
                    block := ((c.state.expectedHeader.len + 28) % 2 ^ 32 + 28) % 2 ^ 32 }
      else Except.error c.state.written := by
  simp only [repairChecked, if_true, headerLength]

theorem validateSizeChecked_of_ge (l : Bool) (fd : Mem) (c : Checked)
    (h : 28 ≤ readU32 c.state.currentHeader 4) : validateSizeChecked l fd c = Except.ok c := by
  have : ¬ readU32 c.state.currentHeader 4 < headerLength := by
    simp only [headerLength]; omega
  simp only [validateSizeChecked, this, if_false]

theorem validateLengthChecked_of_eq (l : Bool) (fd : Mem) (c : Checked)
    (h : readU32 c.state.currentHeader 4 = c.state.expectedHeader.len) :
    validateLengthChecked l fd c = Except.ok c := by
  simp only [validateLengthChecked, h, if_true]

theorem validateChecksumChecked_of_eq (l : Bool) (fd : Mem) (c : Checked)
    (h : readU32 c.state.currentHeader 8 = c.state.expectedHeader.crc) :
    validateChecksumChecked l fd c = Except.ok c := by
  unfold validateChecksumChecked
  split
  · simp only [h, if_true]
  · rfl

theorem validateMagicChecked_mk_eq (l : Bool) (fd : Mem) (s : State) (b : Nat)
    (h : readU32 s.currentHeader 0 = s.expectedHeader.magic) :
    validateMagicChecked l fd { state := s, block := b } = Except.ok { state := s, block := b } := by
  simp only [validateMagicChecked, h, if_true]

theorem validateMagicChecked_mk_ne (l : Bool) (fd : Mem) (s : State) (b : Nat)
    (h : ¬ readU32 s.currentHeader 0 = s.expectedHeader.magic) :
    validateMagicChecked l fd { state := s, block := b }
      = repairChecked true (-1) l fd
          { state := { s with expectedHeader := fallbackHeader s.expectedHeader },
            block := b } := by
  simp only [validateMagicChecked, h, if_false]

theorem validateSizeChecked_mk_ge (l : Bool) (fd : Mem) (s : State) (b : Nat)
    (h : 28 ≤ readU32 s.currentHeader 4) :
    validateSizeChecked l fd { state := s, block := b } = Except.ok { state := s, block := b } :=
  validateSizeChecked_of_ge l fd { state := s, block := b } h

theorem validateSizeChecked_mk_lt (l : Bool) (fd : Mem) (s : State) (b : Nat)
    (h : readU32 s.currentHeader 4 < 28) :
    validateSizeChecked l fd { state := s, block := b }
      = repairChecked false (-2) l fd { state := s, block := b } := by
  have h2 : readU32 s.currentHeader 4 < headerLength := h
  simp only [validateSizeChecked, h2, if_true]

theorem validateLengthChecked_mk_eq (l : Bool) (fd : Mem) (s : State) (b : Nat)
    (h : readU32 s.currentHeader 4 = s.expectedHeader.len) :
    validateLengthChecked l fd { state := s, block := b } = Except.ok { state := s, block := b } :=
  validateLengthChecked_of_eq l fd { state := s, block := b } h

theorem validateLengthChecked_mk_ne (l : Bool) (fd : Mem) (s : State) (b : Nat)
    (h : ¬ readU32 s.currentHeader 4 = s.expectedHeader.len) :
    validateLengthChecked l fd { state := s, block := b }
      = repairChecked false (-2) l fd { state := s, block := b } := by
  simp only [validateLengthChecked, h, if_false]

theorem validateChecksumChecked_mk_eq (l : Bool) (fd : Mem) (s : State) (b : Nat)
    (h : readU32 s.currentHeader 8 = s.expectedHeader.crc) :
    validateChecksumChecked l fd { state := s, block := b }
      = Except.ok { state := s, block := b } :=
  validateChecksumChecked_of_eq l fd { state := s, block := b } h

theorem validateChecksumChecked_mk_ne (l : Bool) (fd : Mem) (s : State) (b : Nat)
    (hr : s.retVal ≠ 0) (h : ¬ readU32 s.currentHeader 8 = s.expectedHeader.crc) :
    validateChecksumChecked l fd { state := s, block := b }
      = repairChecked false (-2) l fd { state := s, block := b } := by
  simp only [validateChecksumChecked, hr, h, if_false, ne_eq, not_false_eq_true, if_true]

theorem repairChecked_mk_false (r : Int) (l : Bool) (fd : Mem) (s : State) (b : Nat) :
    repairChecked false r l fd { state := s, block := b } =
      if 12 + crcLength (writeTRXBuffer false s.expectedHeader s.currentHeader l fd) ≤ b then
        Except.ok { state := repair false r l fd s, block := b }
      else Except.error s.written :=
  repairChecked_false r l fd { state := s, block := b }

theorem repairChecked_mk_true (r : Int) (l : Bool) (fd : Mem) (s : State) (b : Nat) :
    repairChecked true r l fd { state := s, block := b } =
      if 12 + crcLength (writeTRXBuffer true s.expectedHeader s.currentHeader l fd)
          ≤ ((s.expectedHeader.len + 28) % 2 ^ 32 + 28) % 2 ^ 32 then
        Except.ok { state := repair true r l fd s,
                    block := ((s.expectedHeader.len + 28) % 2 ^ 32 + 28) % 2 ^ 32 }
      else Except.error s.written :=
  repairChecked_true r l fd { state := s, block := b }

/-- After a call of `writeTRX` the length and checksum checks of the checked pass call
nothing more. -/
theorem repairChecked_settled (l : Bool) (fd : Mem) (nh : Bool) (r : Int) (s : State) (b : Nat)
    (h : s.expectedHeader.len < 2 ^ 32) :
    ((validateLengthChecked l fd { state := repair nh r l fd s, block := b }).bind
      (validateChecksumChecked l fd)) = Except.ok { state := repair nh r l fd s, block := b } := by
  rw [validateLengthChecked_mk_eq l fd (repair nh r l fd s) b (writeTRX_len_eq _ _ _ _ _ h),
    bind_ok,
    validateChecksumChecked_mk_eq l fd (repair nh r l fd s) b (writeTRX_crc_eq _ _ _ _ _)]

theorem newHeader_inRange (size : Nat) (data : Mem) (l : Bool) (fh : TRXHeader) (fd : Mem)
    (hs : size < 2 ^ 31) :
    12 + crcLength (writeTRXBuffer true (fallbackHeader (expectedInit size data fh)) data l fd)
      ≤ (((fallbackHeader (expectedInit size data fh)).len + 28) % 2 ^ 32 + 28) % 2 ^ 32 := by
  have hlen := fallback_len size data fh hs
  have h4 : readU32 (writeTRXBuffer true (fallbackHeader (expectedInit size data fh)) data l fd)
      4 = size + 28 := by
    simp only [writeTRXBuffer, if_true, headerLength]
    rw [readU32_memcpy_before _ _ _ _ _ (by norm_num), readU32_storeHeader_len, hlen]
    show (size + 28) % 2 ^ 32 % 2 ^ 32 = size + 28
    omega
  unfold crcLength
  rw [h4, hlen]
  omega

/-- The checked pass over a buffer without the magic never faults. -/
theorem validateTRXChecked_noMagic (size : Nat) (data : Mem) (l : Bool) (fh : TRXHeader)
    (fd : Mem) (hs : size < 2 ^ 31) (hm : readU32 data 0 ≠ TRX_MAGIC) :
    validateTRXChecked size data l fh fd = Except.ok (validateTRX size data l fh fd) := by
  have hlen := fallback_len size data fh hs
  have hne : ¬ readU32 (initState size data fh).currentHeader 0
      = (initState size data fh).expectedHeader.magic := by
    show ¬ readU32 data 0 = (expectedInit size data fh).magic
    rw [expectedInit_magic]; exact hm
  have hin : 12 + crcLength (writeTRXBuffer true
      ({ initState size data fh with
          expectedHeader := fallbackHeader (initState size data fh).expectedHeader }
        : State).expectedHeader
      ({ initState size data fh with
          expectedHeader := fallbackHeader (initState size data fh).expectedHeader }
        : State).currentHeader l fd)
      ≤ ((({ initState size data fh with
          expectedHeader := fallbackHeader (initState size data fh).expectedHeader }
        : State).expectedHeader.len + 28) % 2 ^ 32 + 28) % 2 ^ 32 :=
    newHeader_inRange size data l fh fd hs
  have hl : ({ initState size data fh with
      expectedHeader := fallbackHeader (initState size data fh).expectedHeader }
        : State).expectedHeader.len < 2 ^ 32 := by
    show (fallbackHeader (expectedInit size data fh)).len < 2 ^ 32
    rw [hlen]; omega
  have h28 : 28 ≤ readU32 (repair true (-1) l fd
      { initState size data fh with
        expectedHeader := fallbackHeader (initState size data fh).expectedHeader }).currentHeader
      4 := by
    show 28 ≤ readU32 (writeTRX true (fallbackHeader (expectedInit size data fh)) data l
      fd).currentHeader 4
    rw [writeTRX_len_eq _ _ _ _ _ (by rw [hlen]; omega), writeTRX_true_len, hlen]
    omega
  unfold validateTRXChecked
  rw [initChecked_ok size data fh hs, bind_ok,
    validateMagicChecked_mk_ne l fd (initState size data fh) (size + 1) hne,
    repairChecked_mk_true, if_pos hin, bind_ok,
    validateSizeChecked_mk_ge l fd _ _ h28, bind_ok,
    repairChecked_settled l fd true (-1) _ _ hl, map_ok,
    validateTRX_noMagic size data l fh fd hs hm]
  rfl

/-- The checked pass over a buffer that starts with the magic: no call of `writeTRX` when
the header is valid, otherwise one call of `writeTRX(0, ...)`, which faults when its
checksum range leaves the block of `size + 1` bytes. -/
theorem validateTRXChecked_magic (size : Nat) (data : Mem) (l : Bool) (fh : TRXHeader)
    (fd : Mem) (hs : size < 2 ^ 31) (hm : readU32 data 0 = TRX_MAGIC) :
    validateTRXChecked size data l fh fd =
      if 28 ≤ readU32 data 4 ∧ readU32 data 4 = size % 2 ^ 32
          ∧ readU32 data 8 = (expectedInit size data fh).crc then
        Except.ok (initState size data fh)
      else if 12 + crcLength (writeTRXBuffer false (expectedInit size data fh) data l fd)
          ≤ size + 1 then
        Except.ok (repair false (-2) l fd (initState size data fh))
      else Except.error [] := by
  have hl : (initState size data fh).expectedHeader.len < 2 ^ 32 := by
    show (expectedInit size data fh).len < 2 ^ 32
    rw [expectedInit_len]; omega
  have he : readU32 (initState size data fh).currentHeader 0
      = (initState size data fh).expectedHeader.magic := by
    show readU32 data 0 = (expectedInit size data fh).magic
    rw [expectedInit_magic]; exact hm
  have hrep : repairChecked false (-2) l fd { state := initState size data fh, block := size + 1 }
      = if 12 + crcLength (writeTRXBuffer false (expectedInit size data fh) data l fd)
          ≤ size + 1 then
          Except.ok { state := repair false (-2) l fd (initState size data fh), block := size + 1 }
        else Except.error [] := repairChecked_mk_false (-2) l fd (initState size data fh) (size + 1)
  unfold validateTRXChecked
  rw [initChecked_ok size data fh hs, bind_ok,
    validateMagicChecked_mk_eq l fd (initState size data fh) (size + 1) he, bind_ok]
  by_cases h28 : 28 ≤ readU32 data 4
  · have h28' : 28 ≤ readU32 (initState size data fh).currentHeader 4 := h28
    rw [validateSizeChecked_mk_ge l fd (initState size data fh) (size + 1) h28',
      bind_ok]
    by_cases hlen : readU32 data 4 = size % 2 ^ 32
    · have hlen2 : readU32 (initState size data fh).currentHeader 4
          = (initState size data fh).expectedHeader.len := by
        show readU32 data 4 = (expectedInit size data fh).len
        rw [expectedInit_len]; exact hlen
      rw [validateLengthChecked_mk_eq l fd (initState size data fh) (size + 1) hlen2,
        bind_ok]
      by_cases hcrc : readU32 data 8 = (expectedInit size data fh).crc
      · have hcrc' : readU32 (initState size data fh).currentHeader 8
            = (initState size data fh).expectedHeader.crc := hcrc
        rw [validateChecksumChecked_mk_eq l fd (initState size data fh) (size + 1) hcrc',
          map_ok, if_pos ⟨h28, hlen, hcrc⟩]
      · have hc : ¬ readU32 (initState size data fh).currentHeader 8
            = (initState size data fh).expectedHeader.crc := hcrc
        have hr : (initState size data fh).retVal ≠ 0 := by show (1 : Int) ≠ 0; decide
        have hneg : ¬ (28 ≤ readU32 data 4 ∧ readU32 data 4 = size % 2 ^ 32
            ∧ readU32 data 8 = (expectedInit size data fh).crc) := fun h => hcrc h.2.2
        rw [if_neg hneg,
          validateChecksumChecked_mk_ne l fd (initState size data fh) (size + 1) hr hc, hrep]
        split
        · rw [map_ok]
        · rw [map_error]
    · have hc : ¬ readU32 (initState size data fh).currentHeader 4
          = (initState size data fh).expectedHeader.len := by
        show ¬ readU32 data 4 = (expectedInit size data fh).len
        rw [expectedInit_len]; exact hlen
      have hneg : ¬ (28 ≤ readU32 data 4 ∧ readU32 data 4 = size % 2 ^ 32
            ∧ readU32 data 8 = (expectedInit size data fh).crc) := fun h => hlen h.2.1
      rw [if_neg hneg,
        validateLengthChecked_mk_ne l fd (initState size data fh) (size + 1) hc, hrep]
      split
      · rw [bind_ok,
          validateChecksumChecked_mk_eq l fd _ _ (writeTRX_crc_eq _ _ _ _ _),
          map_ok]
      · rw [bind_error, map_error]
  · have hc : readU32 (initState size data fh).currentHeader 4 < 28 := by
      show readU32 data 4 < 28; omega
    have hneg : ¬ (28 ≤ readU32 data 4 ∧ readU32 data 4 = size % 2 ^ 32
            ∧ readU32 data 8 = (expectedInit size data fh).crc) := fun h => h28 h.1
    rw [if_neg hneg,
      validateSizeChecked_mk_lt l fd (initState size data fh) (size + 1) hc, hrep]
    split
    · rw [bind_ok, repairChecked_settled l fd false (-2) _ _ hl, map_ok]
    · rw [bind_error, bind_error, map_error]

theorem overwrite_inRange_iff (size : Nat) (data : Mem) (l : Bool) (fh : TRXHeader) (fd : Mem)
    (hs : size < 2 ^ 31) :
    12 + crcLength (writeTRXBuffer false (expectedInit size data fh) data l fd) ≤ size + 1
      ↔ (l = false ∧ 12 ≤ size) ∨ (l = true ∧ 990 ≤ size) := by
  unfold crcLength
  rw [overwrite_buffer_len size data l fh fd hs]
  cases l
  · simp only [Bool.false_eq_true, if_false, true_and, false_and, or_false]
    omega
  · simp only [if_true, true_and, Bool.true_eq_false, false_and, false_or]
    omega

/-- Where no call of `calcCRC` leaves its block the checked pass ends in the state of
`validateTRX`: always when the magic is missing or the header is valid, and for a repair
of a buffer that starts with the magic when `12 ≤ size` (linksys off) or `990 ≤ size`
(linksys on). -/
theorem validateTRXChecked_ok (size : Nat) (data : Mem) (l : Bool) (fh : TRXHeader)
    (fd : Mem) (hs : size < 2 ^ 31)
    (h : readU32 data 0 = TRX_MAGIC → (validateTRX size data l fh fd).retVal ≠ 1 →
      (l = false ∧ 12 ≤ size) ∨ (l = true ∧ 990 ≤ size)) :
    validateTRXChecked size data l fh fd = Except.ok (validateTRX size data l fh fd) := by
  by_cases hm : readU32 data 0 = TRX_MAGIC
  · rw [validateTRXChecked_magic size data l fh fd hs hm]
    have hv := validateTRX_magic size data l fh fd hm
    split
    · rename_i hc
      rw [hv, if_pos hc]
    · rename_i hc
      have hr : (validateTRX size data l fh fd).retVal ≠ 1 := by
        rw [hv, if_neg hc, repair_retVal]; decide
      rw [if_pos ((overwrite_inRange_iff size data l fh fd hs).mpr (h hm hr)), hv, if_neg hc]
  · exact validateTRXChecked_noMagic size data l fh fd hs hm

/-- The checked pass ends in a fault, with nothing written, on a buffer that starts with
the magic and whose header is not valid (it needs the overwrite repair) when `size < 12`
(linksys off) or `size < 990` (linksys on). -/
theorem validateTRXChecked_fault (size : Nat) (data : Mem) (l : Bool) (fh : TRXHeader)
    (fd : Mem) (hs : size < 2 ^ 31) (hm : readU32 data 0 = TRX_MAGIC)
    (hc : ¬ (28 ≤ readU32 data 4 ∧ readU32 data 4 = size
      ∧ readU32 data 8 = (expectedInit size data fh).crc))
    (hw : (l = false ∧ size < 12) ∨ (l = true ∧ size < 990)) :
    validateTRXChecked size data l fh fd = Except.error [] := by
  have hmod : size % 2 ^ 32 = size := Nat.mod_eq_of_lt (by omega)
  have hneg : ¬ (28 ≤ readU32 data 4 ∧ readU32 data 4 = size % 2 ^ 32
      ∧ readU32 data 8 = (expectedInit size data fh).crc) := by
    rw [hmod]; exact hc
  have hout : ¬ 12 + crcLength (writeTRXBuffer false (expectedInit size data fh) data l fd)
      ≤ size + 1 := by
    intro h
    rcases (overwrite_inRange_iff size data l fh fd hs).mp h with ⟨h1, h2⟩ | ⟨h1, h2⟩ <;>
      rcases hw with ⟨h3, h4⟩ | ⟨h3, h4⟩
    · omega
    · rw [h1] at h3; exact Bool.noConfusion h3
    · rw [h1] at h3; exact Bool.noConfusion h3
    · omega
  rw [validateTRXChecked_magic size data l fh fd hs hm, if_neg hneg, if_neg hout]

/-! ## Inputs on which the program ends inside `calcCRC` -/

/-- C6 fails in linksys mode below 990 bytes.  The 100-byte file `magicOnly` (more than
28 bytes, the magic, `len` field 0) is in the last case of the claim, return value -2.
With linksys off the checked pass returns, and returns -2.  With linksys on the byte
count of "Recalculate checksum" has wrapped, the call of `calcCRC` leaves the block of
101 bytes and the pass ends there: no value is returned and no file has been written. -/
theorem outcome_faults :
    28 < 100 ∧ readU32 magicOnly 0 = TRX_MAGIC ∧ readU32 magicOnly 4 ≠ 100
      ∧ validateTRXChecked 100 magicOnly false zeroHeader zeroMem
          = Except.ok (validateTRX 100 magicOnly false zeroHeader zeroMem)
      ∧ (validateTRX 100 magicOnly false zeroHeader zeroMem).retVal = -2
      ∧ validateTRXChecked 100 magicOnly true zeroHeader zeroMem = Except.error [] :=
  ⟨by decide, by decide, by decide,
    validateTRXChecked_ok 100 magicOnly false zeroHeader zeroMem (by decide)
      (fun _ _ => Or.inl ⟨rfl, by decide⟩),
    retVal_of_len_ne 100 magicOnly false zeroHeader zeroMem (by decide) (by decide),
    validateTRXChecked_fault 100 magicOnly true zeroHeader zeroMem (by decide) (by decide)
      (fun h => absurd h.2.1 (by decide)) (Or.inr ⟨rfl, by decide⟩)⟩

/-- C7 fails where the overwrite repair faults.  The 8-byte file `magicOnly` with linksys
off and the 100-byte file `magicOnly` with linksys on start with the magic and are not
valid (`len` field 0), so the pass calls `writeTRX(0, ...)`; the call of `calcCRC` in
"Recalculate checksum" leaves the block and the program ends before `writeFile`: the
pass has written no file, where the claim has exactly one. -/
theorem writes_none_on_fault :
    readU32 magicOnly 0 = TRX_MAGIC ∧ readU32 magicOnly 4 = 0
      ∧ validateTRXChecked 8 magicOnly false zeroHeader zeroMem = Except.error []
      ∧ validateTRXChecked 100 magicOnly true zeroHeader zeroMem = Except.error [] :=
  ⟨by decide, by decide,
    validateTRXChecked_fault 8 magicOnly false zeroHeader zeroMem (by decide) (by decide)
      (fun h => absurd h.2.1 (by decide)) (Or.inl ⟨rfl, by decide⟩),
    validateTRXChecked_fault 100 magicOnly true zeroHeader zeroMem (by decide) (by decide)
      (fun h => absurd h.2.1 (by decide)) (Or.inr ⟨rfl, by decide⟩)⟩

/-- C8 fails below 990 bytes.  For the 100-byte file `magicOnly` (magic, `len` field 0)
in linksys mode the `len` field in the buffer becomes `100 - 978` modulo `2^32`, that is
`100 + 4294966318`, the call of `calcCRC` that follows leaves the block and no file is
written.  For the same file cut at 989 bytes `989 - 978 = 11` does not wrap, but the
byte count `11 - 12` does, and again no file is written. -/
theorem linksys_len_faults :
    readU32 magicOnly 0 = TRX_MAGIC ∧ readU32 magicOnly 4 ≠ 100 ∧ readU32 magicOnly 4 ≠ 989
      ∧ readU32 (writeTRXBuffer false (expectedInit 100 magicOnly zeroHeader) magicOnly
            true zeroMem) 4 = 100 + 4294966318
      ∧ validateTRXChecked 100 magicOnly true zeroHeader zeroMem = Except.error []
      ∧ validateTRXChecked 989 magicOnly true zeroHeader zeroMem = Except.error [] :=
  ⟨by decide, by decide, by decide,
    (overwrite_call_linksys 100 magicOnly zeroHeader zeroMem (by decide)).1,
    validateTRXChecked_fault 100 magicOnly true zeroHeader zeroMem (by decide) (by decide)
      (fun h => absurd h.2.1 (by decide)) (Or.inr ⟨rfl, by decide⟩),
    validateTRXChecked_fault 989 magicOnly true zeroHeader zeroMem (by decide) (by decide)
      (fun h => absurd h.2.1 (by decide)) (Or.inr ⟨rfl, by decide⟩)⟩

/-- C15 fails in linksys mode below 990 bytes.  The files `magicOnly` of 28 and of 512
bytes start with the magic and have the `len` field 0, below 28, so the pass calls the
overwrite repair; in linksys mode the call of `calcCRC` in "Recalculate checksum" leaves
the block and the program ends before `writeFile`: there is no written output. -/
theorem overwrite_frame_faults :
    28 ≤ 28 ∧ 28 ≤ 512 ∧ readU32 magicOnly 0 = TRX_MAGIC ∧ readU32 magicOnly 4 < 28
      ∧ validateTRXChecked 28 magicOnly true zeroHeader zeroMem = Except.error []
      ∧ validateTRXChecked 512 magicOnly true zeroHeader zeroMem = Except.error [] :=
  ⟨by decide, by decide, by decide, by decide,
    validateTRXChecked_fault 28 magicOnly true zeroHeader zeroMem (by decide) (by decide)
      (fun h => absurd h.2.1 (by decide)) (Or.inr ⟨rfl, by decide⟩),
    validateTRXChecked_fault 512 magicOnly true zeroHeader zeroMem (by decide) (by decide)
      (fun h => absurd h.2.1 (by decide)) (Or.inr ⟨rfl, by decide⟩)⟩

/-- C16 fails with linksys off below 12 bytes.  The 8-byte file `tiny8` starts with the
magic and has the `len` field 8, below 28, so the pass calls the overwrite repair with
`L = 8`; the byte count `8 - 12` wraps to `8 + 4294967284`, the call of `calcCRC` leaves
the block of 9 bytes and the program ends before `writeFile`: no header is written. -/
theorem overwrite_header_faults :
    readU32 tiny8 0 = TRX_MAGIC ∧ readU32 tiny8 4 = 8
      ∧ crcLength (writeTRXBuffer false (expectedInit 8 tiny8 zeroHeader) tiny8 false
            zeroMem) = 8 + 4294967284
      ∧ 8 + 1 < 12 + (8 + 4294967284)
      ∧ validateTRXChecked 8 tiny8 false zeroHeader zeroMem = Except.error [] :=
  ⟨by decide, by decide,
    (overwrite_call_small 8 tiny8 zeroHeader zeroMem (by decide)).2,
    by decide,
    validateTRXChecked_fault 8 tiny8 false zeroHeader zeroMem (by decide) (by decide)
      (fun h => absurd h.1 (by decide)) (Or.inl ⟨rfl, by decide⟩)⟩

/-! ## The 27-byte file -/

theorem expectedInit_crc_of_le (size : Nat) (data : Mem) (fh : TRXHeader) (h : size ≤ 28) :
    (expectedInit size data fh).crc = fh.crc := by
  rw [expectedInit_crc, if_neg (by omega)]

/-- C12 fails when the `len` field is 28 or more: for the 27-byte file `len1000` (magic,
`len` field 1000, linksys off) the size check of step 3, whose comment and messages
speak of the file size, reads the `len` field and writes nothing, and it is the length
check of step 4 that calls the overwrite repair.  Step 1 computes no checksum
(`expectedHeader.crc` keeps the contents of the allocated block).  No call of `calcCRC`
leaves its block on this pass, so the program returns with this state.  (In linksys mode
the pass over the same file ends inside `calcCRC` with nothing written.) -/
theorem len1000_not_tooSmall :
    readU32 len1000 0 = TRX_MAGIC
      ∧ readU32 len1000 4 = 1000
      ∧ validateSize false zeroMem (validateMagic false zeroMem (initState 27 len1000 zeroHeader))
          = validateMagic false zeroMem (initState 27 len1000 zeroHeader)
      ∧ (validateSize false zeroMem
          (validateMagic false zeroMem (initState 27 len1000 zeroHeader))).written = []
      ∧ (validateLength false zeroMem (validateSize false zeroMem
          (validateMagic false zeroMem (initState 27 len1000 zeroHeader)))).written.length = 1
      ∧ (validateTRX 27 len1000 false zeroHeader zeroMem).retVal = -2
      ∧ (expectedInit 27 len1000 zeroHeader).crc = zeroHeader.crc
      ∧ validateTRXChecked 27 len1000 false zeroHeader zeroMem
          = Except.ok (validateTRX 27 len1000 false zeroHeader zeroMem)
      ∧ validateTRXChecked 27 len1000 true zeroHeader zeroMem = Except.error [] :=
  ⟨by decide, by decide,
    validateSize_of_ge _ _ _ (by decide), by decide, by decide,
    retVal_of_len_ne 27 len1000 false zeroHeader zeroMem (by decide) (by decide),
    expectedInit_crc_of_le 27 len1000 zeroHeader (by decide),
    validateTRXChecked_ok 27 len1000 false zeroHeader zeroMem (by decide)
      (fun _ _ => Or.inl ⟨rfl, by decide⟩),
    validateTRXChecked_fault 27 len1000 true zeroHeader zeroMem (by decide) (by decide)
      (fun h => absurd h.2.1 (by decide)) (Or.inr ⟨rfl, by decide⟩)⟩

end TRXUtil
